import Mathlib

/-!
# Verification of the `sitemap` generator

Shallow embedding of the sitemap generator and document model
(`lib/generate.js`, `lib/sitemap.js` and their tests) in Lean 4,
together with proofs settling the specification claims.

Strings are modelled as `List Char`.  JavaScript numbers are modelled as
exact rationals plus an explicit `NaN` value; the few places where a
platform builtin with genuinely floating-point-dependent output is used
(fractional-second scaling in `Date.UTC`, local-time `Date` construction,
number-to-string rendering, and `htmlparser2`'s string-to-DOM parsing)
are parameterised by a `Platform` record rather than modelled exactly.
-/

set_option maxRecDepth 10000

namespace Sitemap

/-! ## JavaScript value model -/

/-- A JavaScript number: either `NaN` or an exact value.  (Every IEEE
double is a rational, so `Rat` loses nothing; rounding of platform
builtins is kept abstract in `Platform`.) -/
inductive JSNum where
  | nan : JSNum
  | val (q : Rat) : JSNum
deriving DecidableEq

/-- A JavaScript `Date`: either a valid instant (epoch milliseconds) or an
Invalid Date (internal time value `NaN`). -/
inductive JSDate where
  | valid (ms : Int) : JSDate
  | invalid : JSDate
deriving DecidableEq

/-- The subset of JavaScript values flowing through the entry-model
setters: `undefined`, `null`, booleans, numbers, strings and `Date`s. -/
inductive JSValue where
  | undef : JSValue
  | null : JSValue
  | boolean (b : Bool) : JSValue
  | num (n : JSNum) : JSValue
  | str (s : List Char) : JSValue
  | date (d : JSDate) : JSValue
deriving DecidableEq

/-- JavaScript truthiness: `undefined`, `null`, `false`, `0`, `NaN` and
the empty string are falsy; every object (hence every `Date`) is truthy. -/
def truthy : JSValue → Bool
  | .undef => false
  | .null => false
  | .boolean b => b
  | .num .nan => false
  | .num (.val q) => q ≠ 0
  | .str s => s ≠ []
  | .date _ => true

/-- Error taxonomy of the library (§7 of the spec). -/
inductive JsErr where
  | invalidSitemapContents : JsErr
  | invalidLastModifiedType : JsErr
  | invalidDateFormat : JsErr
  | invalidPriority : JsErr
  | typeError : JsErr
  | ioError : JsErr
deriving DecidableEq

deriving instance DecidableEq for Except

/-! ## Decimal digits -/

def isDigitB (c : Char) : Bool := '0' ≤ c ∧ c ≤ '9'

def digVal (c : Char) : Nat := c.toNat - 48

def digitChar (d : Nat) : Char := Char.ofNat (48 + d)

/-- Most-significant-first decimal digits, by fuelled division (the fuel
`n` itself always suffices); kernel-computable. -/
def natDigsGo : Nat → Nat → List Char → List Char
  | 0, _, acc => acc
  | _ + 1, 0, acc => acc
  | fuel + 1, n + 1, acc =>
    natDigsGo fuel ((n + 1) / 10) (digitChar ((n + 1) % 10) :: acc)

/-- Decimal rendering of a natural number, as JavaScript's
number-to-string conversion produces for integers. -/
def natDigs (n : Nat) : List Char :=
  if n = 0 then ['0'] else natDigsGo n n []

/-- Decimal rendering of an integer (`'' + i` in JavaScript). -/
def intDigs (i : Int) : List Char :=
  if i < 0 then '-' :: natDigs i.natAbs else natDigs i.toNat

/-- `pad` from `lib/sitemap.js`: `(num < 10 ? '0' : '') + num`. -/
def pad (i : Int) : List Char :=
  (if i < 10 then ['0'] else []) ++ intDigs i

/-! ## `parseFloat`

Model of the JavaScript `parseFloat` builtin on strings: skip leading
whitespace, then take the longest prefix that is a decimal literal
(optional sign, digits, optional fraction, optional exponent) and return
its exact value; `NaN` if no digit is found.  Values are exact rationals
(see the module comment). -/

def isWsB (c : Char) : Bool := c = ' ' ∨ c = '\t' ∨ c = '\n' ∨ c = '\r'

/-- Value of a digit string read as an integer, with accumulator. -/
def digitsVal (acc : Nat) : List Char → Nat
  | [] => acc
  | c :: rest => digitsVal (acc * 10 + digVal c) rest

def powTenN (k : Nat) : Nat := 10 ^ k

/-- Apply an exponent suffix to a mantissa `n / d`; an ill-formed
exponent is simply not part of the longest valid literal, so the
mantissa value stands.  (Values are built with `mkRat` so that they are
kernel-computable.) -/
def parseFloatExp (n : Int) (d : Nat) (r : List Char) : JSNum :=
  let p :=
    match r with
    | '+' :: r' => (false, r')
    | '-' :: r' => (true, r')
    | _ => (false, r)
  let eds := p.2.takeWhile isDigitB
  if eds = [] then .val (mkRat n d)
  else
    let e := digitsVal 0 eds
    .val (if p.1 then mkRat n (d * powTenN e) else mkRat (n * powTenN e) d)

/-- Parse `digits [ '.' digits ] [ ('e'|'E') ['+'|'-'] digits ]` after the
optional sign; returns `NaN` if the mantissa has no digit. -/
def parseFloatBody (neg : Bool) (s : List Char) : JSNum :=
  let intPart := s.takeWhile isDigitB
  let rest1 := s.dropWhile isDigitB
  let fracPart :=
    match rest1 with
    | '.' :: r => r.takeWhile isDigitB
    | _ => []
  let rest2 :=
    match rest1 with
    | '.' :: r => r.dropWhile isDigitB
    | _ => rest1
  if intPart = [] ∧ fracPart = [] then .nan
  else
    let den : Nat := powTenN fracPart.length
    let num : Int := (digitsVal 0 intPart * den + digitsVal 0 fracPart : Nat)
    let signed : Int := if neg then -num else num
    match rest2 with
    | 'e' :: r => parseFloatExp signed den r
    | 'E' :: r => parseFloatExp signed den r
    | _ => .val (mkRat signed den)

/-- `parseFloat` on a string value. -/
def jsParseFloat (s : List Char) : JSNum :=
  let t := s.dropWhile isWsB
  match t with
  | '-' :: r => parseFloatBody true r
  | '+' :: r => parseFloatBody false r
  | _ => parseFloatBody false t

/-- String conversion applied by `parseFloat` to the non-string,
non-number values that can reach it in this code base. -/
def jsToStringCoarse : JSValue → List Char
  | .undef => "undefined".toList
  | .null => "null".toList
  | .boolean true => "true".toList
  | .boolean false => "false".toList
  | .str s => s
  | .num _ => []
  | .date _ => "[Date]".toList

/-! ## Date codec: ECMAScript time arithmetic

The date functions of `lib/sitemap.js` use the host `Date` object; its
UTC accessors and `Date.UTC` are specified by ECMA-262 as exact integer
arithmetic, embedded here.  Divisions are floor divisions (`Int.ediv`
with the positive divisors used here is floor division). -/

def msPerDay : Int := 86400000

/-- ECMA `Day(t)`. -/
def dayOf (t : Int) : Int := t.ediv msPerDay

/-- ECMA `TimeWithinDay(t)`. -/
def timeWithinDay (t : Int) : Int := t.emod msPerDay

/-- Gregorian leap-year rule (ECMA `DaysInYear`). -/
def isLeap (y : Int) : Bool := (y.emod 4 = 0 ∧ y.emod 100 ≠ 0) ∨ y.emod 400 = 0

/-- ECMA `DayFromYear(y)`. -/
def dayFromYear (y : Int) : Int :=
  365 * (y - 1970) + (y - 1969).ediv 4 - (y - 1901).ediv 100 + (y - 1601).ediv 400

/-- Bounded search for ECMA `YearFromTime`: the unique `y` with
`dayFromYear y ≤ d < dayFromYear (y + 1)`, found by walking from 1970. -/
def searchYear : Nat → Int → Int → Option Int
  | 0, _, _ => none
  | fuel + 1, y, d =>
    if dayFromYear y ≤ d then
      if d < dayFromYear (y + 1) then some y else searchYear fuel (y + 1) d
    else searchYear fuel (y - 1) d

/-- ECMA `YearFromTime` on a day number (total wrapper; years reachable
through the claims are found well within the fuel). -/
def yearFromDay (d : Int) : Int := (searchYear 20000 1970 d).getD 1970

/-- ECMA `InLeapYear`-consistent cumulative day count before month `m`
(`0`-based) of a year with leap flag `lp` (the month table of
`MonthFromTime`/`DateFromTime`/`MakeDay`). -/
def cumDaysL (l : Int) (m : Nat) : Int :=
  match m with
  | 0 => 0
  | 1 => 31
  | 2 => 59 + l
  | 3 => 90 + l
  | 4 => 120 + l
  | 5 => 151 + l
  | 6 => 181 + l
  | 7 => 212 + l
  | 8 => 243 + l
  | 9 => 273 + l
  | 10 => 304 + l
  | _ => 334 + l

/-- ECMA `InLeapYear`-consistent cumulative day count (leap flag form). -/
def cumDays (lp : Bool) (m : Nat) : Int :=
  cumDaysL (if lp then 1 else 0) m

/-- ECMA `MonthFromTime` on a day-within-year, parametrised by the leap-day
adjustment `l`. -/
def monthFromDwyL (l : Int) (dwy : Int) : Nat :=
  if dwy < 31 then 0
  else if dwy < 59 + l then 1
  else if dwy < 90 + l then 2
  else if dwy < 120 + l then 3
  else if dwy < 151 + l then 4
  else if dwy < 181 + l then 5
  else if dwy < 212 + l then 6
  else if dwy < 243 + l then 7
  else if dwy < 273 + l then 8
  else if dwy < 304 + l then 9
  else if dwy < 334 + l then 10
  else 11

/-- ECMA `MonthFromTime` on a day-within-year. -/
def monthFromDwy (lp : Bool) (dwy : Int) : Nat :=
  monthFromDwyL (if lp then 1 else 0) dwy

/-- ECMA `DateFromTime` on a day-within-year: day within the month,
`1`-based. -/
def dateFromDwy (lp : Bool) (dwy : Int) : Int :=
  dwy - cumDays lp (monthFromDwy lp dwy) + 1

/-- `getUTCFullYear`. -/
def yft (t : Int) : Int := yearFromDay (dayOf t)

/-- Day within the year of `t`. -/
def dwyOf (t : Int) : Int := dayOf t - dayFromYear (yft t)

/-- `getUTCMonth` (`0`-based). -/
def monthFromTime (t : Int) : Nat := monthFromDwy (isLeap (yft t)) (dwyOf t)

/-- `getUTCDate` (`1`-based). -/
def dateFromTime (t : Int) : Int := dateFromDwy (isLeap (yft t)) (dwyOf t)

/-- `getUTCHours`. -/
def hourFromTime (t : Int) : Int := (t.ediv 3600000).emod 24

/-- `getUTCMinutes`. -/
def minFromTime (t : Int) : Int := (t.ediv 60000).emod 60

/-- `getUTCSeconds`. -/
def secFromTime (t : Int) : Int := (t.ediv 1000).emod 60

/-- ECMA `MakeDay(y, m, d)` (month may be any integer; it is folded into
the year). -/
def makeDay (y m d : Int) : Int :=
  let ym := y + m.ediv 12
  let mn := (m.emod 12).toNat
  dayFromYear ym + cumDays (isLeap ym) mn + (d - 1)

/-- ECMA `ToInteger` on an exact rational: truncation toward zero
(computed from the normalized numerator and denominator). -/
def timeClip (r : Rat) : Int :=
  if 0 ≤ r.num then r.num.ediv (r.den : Int) else -((-r.num).ediv (r.den : Int))

/-- `ToInteger(base + ms)` for an integer `base` and exact rational `ms`,
computed on the common denominator (truncation toward zero). -/
def truncAddInt (base : Int) (ms : Rat) : Int :=
  let n : Int := base * (ms.den : Int) + ms.num
  if 0 ≤ n then n.ediv (ms.den : Int) else -((-n).ediv (ms.den : Int))

/-- `Date.UTC(y, mo, d, h, mi, s, ms)`: `MakeDate(MakeDay(..), MakeTime(..))`
followed by `TimeClip`.  The millisecond argument is a rational because
the source passes `parseFloat(fraction) * 1000` there. -/
def dateUTC (y mo d h mi s : Int) (ms : Rat) : Int :=
  truncAddInt ((makeDay y mo d) * msPerDay + h * 3600000 + mi * 60000 + s * 1000) ms

/-! ## Date codec: `formatDate` (from `lib/sitemap.js`) -/

/-- `formatDate` from the source: UTC accessors rendered as
`YYYY-MM-DDThh:mm:ssZ`.  An Invalid Date renders through `NaN` exactly as
the JavaScript string concatenation does. -/
def formatDate : JSDate → List Char
  | .invalid => "NaN-NaN-NaNTNaN:NaN:NaNZ".toList
  | .valid t =>
    intDigs (yft t) ++ '-' :: pad ((monthFromTime t : Int) + 1) ++ '-' :: pad (dateFromTime t)
      ++ 'T' :: pad (hourFromTime t) ++ ':' :: pad (minFromTime t) ++ ':' :: pad (secFromTime t)
      ++ ['Z']

/-! ## Date codec: `parseDate` (from `lib/sitemap.js`)

Each anchored regular expression of the source is compiled to a
deterministic matcher over `List Char`; the alternation-free, fixed-width
digit groups make the compilation direct. -/

/-- Consume exactly `n` digits, accumulating their value. -/
def pDigitsGo : Nat → Nat → List Char → Option (Nat × List Char)
  | 0, acc, s => some (acc, s)
  | _ + 1, _, [] => none
  | k + 1, acc, c :: rest =>
    if isDigitB c then pDigitsGo k (acc * 10 + digVal c) rest else none

def pDigits (n : Nat) (s : List Char) : Option (Nat × List Char) := pDigitsGo n 0 s

/-- Consume one literal character. -/
def pLit (c : Char) : List Char → Option (List Char)
  | [] => none
  | c' :: rest => if c' = c then some rest else none

/-- `^\d{4}$` (the `YYYY` form). -/
def matchY (s : List Char) : Option Nat := do
  let (y, r) ← pDigits 4 s
  if r = [] then pure y else none

/-- `^(\d{4})-(\d{2})$` (the `YYYY-MM` form). -/
def matchYM (s : List Char) : Option (Nat × Nat) := do
  let (y, r1) ← pDigits 4 s
  let r2 ← pLit '-' r1
  let (mo, r) ← pDigits 2 r2
  if r = [] then pure (y, mo) else none

/-- `^(\d{4})-(\d{2})-(\d{2})$` (the `YYYY-MM-DD` form; the source tests
this same expression twice in a row). -/
def matchYMD (s : List Char) : Option (Nat × Nat × Nat) := do
  let (y, r1) ← pDigits 4 s
  let r2 ← pLit '-' r1
  let (mo, r3) ← pDigits 2 r2
  let r4 ← pLit '-' r3
  let (d, r) ← pDigits 2 r4
  if r = [] then pure (y, mo, d) else none

/-- The timezone suffix `(Z|[+-]\d{2}:\d{2})`. -/
inductive TzOff where
  | zulu : TzOff
  | plus (hh mm : Nat) : TzOff
  | minus (hh mm : Nat) : TzOff
deriving DecidableEq

/-- Fields captured by the full-datetime regular expression. -/
structure DTFields where
  y : Nat
  mo : Nat
  d : Nat
  h : Nat
  mi : Nat
  sec : Option Nat
  frac : Option (List Char)
  off : TzOff
deriving DecidableEq

def matchOffSigned (mk : Nat → Nat → TzOff) (r : List Char) : Option TzOff := do
  let (hh, r1) ← pDigits 2 r
  let r2 ← pLit ':' r1
  let (mm, r3) ← pDigits 2 r2
  if r3 = [] then pure (mk hh mm) else none

def matchOff (s : List Char) : Option TzOff :=
  match s with
  | ['Z'] => some .zulu
  | '+' :: r => matchOffSigned .plus r
  | '-' :: r => matchOffSigned .minus r
  | _ => none

/-- The optional `(?::(\d{2})(\.\d+)?)?` groups followed by the timezone:
greedy and deterministic because a digit can follow neither group. -/
def matchSecFracOff (s : List Char) : Option (Option Nat × Option (List Char) × TzOff) :=
  match s with
  | ':' :: r => do
    let (sec, r1) ← pDigits 2 r
    match r1 with
    | '.' :: r2 =>
      let ds := r2.takeWhile isDigitB
      if ds = [] then none
      else do
        let off ← matchOff (r2.dropWhile isDigitB)
        pure (some sec, some ds, off)
    | _ => do
      let off ← matchOff r1
      pure (some sec, none, off)
  | _ => do
    let off ← matchOff s
    pure (none, none, off)

/-- `^(\d{4})-(\d{2})-(\d{2})T(\d{2}):(\d{2})(?::(\d{2})(\.\d+)?)?(Z|[+-]\d{2}:\d{2})$`. -/
def matchFull (s : List Char) : Option DTFields := do
  let (y, r1) ← pDigits 4 s
  let r2 ← pLit '-' r1
  let (mo, r3) ← pDigits 2 r2
  let r4 ← pLit '-' r3
  let (d, r5) ← pDigits 2 r4
  let r6 ← pLit 'T' r5
  let (h, r7) ← pDigits 2 r6
  let r8 ← pLit ':' r7
  let (mi, r9) ← pDigits 2 r8
  let (sec, frac, off) ← matchSecFracOff r9
  pure ⟨y, mo, d, h, mi, sec, frac, off⟩

/-- Platform builtins that this embedding keeps abstract: the exact
double value of `parseFloat('.' ++ digits) * 1000`, local-time `Date`
construction (`new Date(y, m, d)` — timezone dependent), number
rendering and the locale-dependent default `Date` rendering.
(`htmlparser2.parseDOM` is also abstract; the DOM type is declared
later, so that function is carried separately where needed.) -/
structure Platform where
  fracMs : List Char → Rat
  mkLocal : Int → Int → Int → Int
  numRender : Rat → List Char
  dateRender : List Char

/-- The signed millisecond correction the source applies for an explicit
offset: `time += (sign === '-' ? 1 : -1) * ((hh * 60 + mm)) * 60 * 1000`. -/
def offAdjust : TzOff → Int
  | .zulu => 0
  | .plus hh mm => -(((hh : Int) * 60 + mm) * 60 * 1000)
  | .minus hh mm => ((hh : Int) * 60 + mm) * 60 * 1000

/-- `parseDate` from the source: try the anchored forms in order (the
`YYYY-MM-DD` form appears twice in the source; the duplicate test is
observationally a no-op), else fail with `InvalidDateFormat`. -/
def parseDate (P : Platform) (s : List Char) : Except JsErr Int :=
  match matchY s with
  | some y => .ok (P.mkLocal y 0 1)
  | none =>
    match matchYM s with
    | some (y, mo) => .ok (P.mkLocal y ((mo : Int) - 1) 1)
    | none =>
      match matchYMD s with
      | some (y, mo, d) => .ok (P.mkLocal y ((mo : Int) - 1) d)
      | none =>
        match matchYMD s with
        | some (y, mo, d) => .ok (P.mkLocal y ((mo : Int) - 1) d)
        | none =>
          match matchFull s with
          | some f =>
            let ms : Rat := match f.frac with
              | none => 0
              | some ds => P.fracMs ds
            let base := dateUTC f.y ((f.mo : Int) - 1) f.d f.h f.mi (f.sec.getD 0) ms
            .ok (base + offAdjust f.off)
          | none => .error .invalidDateFormat

/-! ## Entry model (`SitemapEntry` from `lib/sitemap.js`) -/

/-- The fields of a `SitemapEntry`.  `url` and `changeFrequency` are
plain properties (`none` models `null`/`undefined`); `lastModifiedF` and
`priorityF` model the backing stores `_lastModified` and `_priority` of
the defined properties.  `priorityF` is a full `JSValue` so that the
always-a-number invariant is a statement, not a typing artefact. -/
structure SitemapEntry where
  url : Option (List Char)
  changeFrequency : Option (List Char)
  lastModifiedF : Option JSDate
  priorityF : JSValue
deriving DecidableEq

/-- `new SitemapEntry()`: `url = null`, `changeFrequency = null`,
`_lastModified = null`, `_priority = DEFAULT_PRIORITY` (`0.5`). -/
def SitemapEntry.init : SitemapEntry :=
  { url := none, changeFrequency := none, lastModifiedF := none,
    priorityF := .num (.val (mkRat 1 2)) }

/-- The `lastModified` setter: `undefined` is a no-op; a number becomes
`new Date(number)` (truncated; `NaN` yields an Invalid Date, which is
still a `Date` and is stored); a string goes through `parseDate`,
propagating its failure; a `Date` is stored as-is; anything else fails
with `InvalidLastModifiedType`. -/
def setLastModified (P : Platform) (e : SitemapEntry) (v : JSValue) :
    Except JsErr SitemapEntry :=
  match v with
  | .undef => .ok e
  | .num .nan => .ok { e with lastModifiedF := some .invalid }
  | .num (.val q) => .ok { e with lastModifiedF := some (.valid (timeClip q)) }
  | .str s =>
    match parseDate P s with
    | .ok t => .ok { e with lastModifiedF := some (.valid t) }
    | .error err => .error err
  | .date d => .ok { e with lastModifiedF := some d }
  | _ => .error .invalidLastModifiedType

/-- The `priority` setter: falsy input is a no-op; a (truthy) number is
stored as-is; anything else is run through `parseFloat`, failing with
`InvalidPriority` on `NaN` and storing the parsed value otherwise. -/
def setPriority (e : SitemapEntry) (v : JSValue) : Except JsErr SitemapEntry :=
  if truthy v = false then .ok e
  else
    match v with
    | .num n => .ok { e with priorityF := .num n }
    | other =>
      match jsParseFloat (jsToStringCoarse other) with
      | .nan => .error .invalidPriority
      | .val q => .ok { e with priorityF := .num (.val q) }

/-! ## DOM model (`htmlparser2` output, as consumed by `lib/sitemap.js`) -/

/-- The `type` tags of DOM nodes the source inspects (string-compared
against `'text'`, `'tag'` and `'pi'`). -/
inductive NodeType where
  | tag : NodeType
  | text : NodeType
  | pi : NodeType
  | otherTy : NodeType
deriving DecidableEq

mutual
inductive DomNode where
  | mk (ty : NodeType) (name : Option (List Char)) (data : List Char)
      (children : DomNodes) : DomNode
inductive DomNodes where
  | nil : DomNodes
  | cons (n : DomNode) (rest : DomNodes) : DomNodes
end

def DomNode.ty : DomNode → NodeType
  | .mk t _ _ _ => t

def DomNode.name : DomNode → Option (List Char)
  | .mk _ n _ _ => n

def DomNode.nodeData : DomNode → List Char
  | .mk _ _ d _ => d

def DomNode.children : DomNode → DomNodes
  | .mk _ _ _ c => c

mutual
/-- `innerText` from the source: a text node's data, a tag node's
concatenated children, the empty string otherwise. -/
def innerText : DomNode → List Char
  | .mk ty _ data children =>
    match ty with
    | .text => data
    | .tag => innerTexts children
    | _ => []
def innerTexts : DomNodes → List Char
  | .nil => []
  | .cons n rest => innerText n ++ innerTexts rest
end

/-- `readNode`: for each child whose name is in the mapping
`loc -> url`, `lastmod -> lastModified`, `changefreq -> changeFrequency`,
`priority -> priority`, assign `innerText(child)` to the mapped property
(last occurrence wins; the `lastModified` and `priority` assignments go
through the setters and can throw). -/
def readNode (P : Platform) (e : SitemapEntry) : DomNodes → Except JsErr SitemapEntry
  | .nil => .ok e
  | .cons child rest => do
    let e' ←
      match child.name with
      | some n =>
        if n = "loc".toList then .ok { e with url := some (innerText child) }
        else if n = "lastmod".toList then setLastModified P e (.str (innerText child))
        else if n = "changefreq".toList then
          .ok { e with changeFrequency := some (innerText child) }
        else if n = "priority".toList then setPriority e (.str (innerText child))
        else .ok e
      | none => .ok e
    readNode P e' rest

/-- `new SitemapEntry(node)` for an object argument. -/
def entryOfNode (P : Platform) (node : DomNode) : Except JsErr SitemapEntry :=
  readNode P SitemapEntry.init node.children

/-! ## Document model (`Sitemap` from `lib/sitemap.js`) -/

/-- An element of a document's `items` sequence: a `SitemapEntry` or the
`GENERATE_MAP` marker (§9 of the spec asks for this tagged-variant
reimplementation of the sentinel object). -/
inductive Item where
  | entry (e : SitemapEntry) : Item
  | generateMarker : Item
deriving DecidableEq

/-- `parseUrlsetNode`'s reduce body over the children of `node`, with
`parentTy` the type of `node` itself: the source pushes an entry for a
child named `url`, and otherwise pushes the `GENERATE_MAP` marker when
`node.type === 'pi'` — the *parent's* type, not the child's (the source
carries a TODO about this check). -/
def urlsetChildren (P : Platform) (parentTy : NodeType) :
    DomNodes → Except JsErr (List Item)
  | .nil => .ok []
  | .cons child rest => do
    let here : List Item ←
      if child.name = some "url".toList then do
        let e ← entryOfNode P child
        pure [.entry e]
      else if parentTy = .pi then pure [.generateMarker]
      else pure []
    let rs ← urlsetChildren P parentTy rest
    .ok (here ++ rs)

/-- `parseUrlsetNode` from the source. -/
def parseUrlsetNode (P : Platform) (node : DomNode) : Except JsErr (List Item) :=
  urlsetChildren P node.ty node.children

/-- `parseSitemap`'s reduce over the top-level DOM nodes: concatenate the
items of every node named `urlset`. -/
def parseSitemapDom (P : Platform) : DomNodes → Except JsErr (List Item)
  | .nil => .ok []
  | .cons n rest => do
    let items ← if n.name = some "urlset".toList then parseUrlsetNode P n else pure []
    let rs ← parseSitemapDom P rest
    .ok (items ++ rs)

/-- The values a caller can pass to the `Sitemap` constructor. -/
inductive CtorArg where
  | undef : CtorArg
  | null : CtorArg
  | boolean (b : Bool) : CtorArg
  | num (n : JSNum) : CtorArg
  | str (s : List Char) : CtorArg
  | arr (items : List Item) : CtorArg
  | obj : CtorArg
deriving DecidableEq

def truthyArg : CtorArg → Bool
  | .undef => false
  | .null => false
  | .boolean b => b
  | .num .nan => false
  | .num (.val q) => q ≠ 0
  | .str s => s ≠ []
  | .arr _ => true
  | .obj => true

/-- The `Sitemap` constructor: `contents = contents || []`; a string is
parsed (`pd` is the abstract `htmlparser2.parseDOM`); a non-array then
fails with `InvalidSitemapContents`; the resulting array becomes
`this.items`. -/
def sitemapNew (P : Platform) (pd : List Char → DomNodes) (a : CtorArg) :
    Except JsErr (List Item) :=
  if truthyArg a = false then .ok []
  else
    match a with
    | .str s => parseSitemapDom P (pd s)
    | .arr items => .ok items
    | _ => .error .invalidSitemapContents

/-! ## Entry serialization (`SitemapEntry.prototype.toXml`) -/

def renderUrl : Option (List Char) → List Char
  | none => "null".toList
  | some s => s

/-- Rendering of a value concatenated into a string (`'' + v`); reached
in this code base only with the number invariant of `priorityF` in
force, but total over `JSValue` (platform-dependent cases go through
`Platform`). -/
def jsRenderVal (P : Platform) : JSValue → List Char
  | .num (.val q) => P.numRender q
  | .num .nan => "NaN".toList
  | .str s => s
  | .boolean true => "true".toList
  | .boolean false => "false".toList
  | .null => "null".toList
  | .undef => "undefined".toList
  | .date _ => P.dateRender

/-- `value !== DEFAULT_PRIORITY` (strict inequality against `0.5`). -/
def strictNeHalf : JSValue → Bool
  | .num (.val q) => decide (q ≠ mkRat 1 2)
  | _ => true

def truthyCF : Option (List Char) → Bool
  | none => false
  | some s => s ≠ []

/-- `SitemapEntry.prototype.toXml(indent)` from the source: `<url>` block
with mandatory `<loc>`, then `<changefreq>` if truthy, `<priority>` if
truthy and not the default `0.5`, `<lastmod>` (via `formatDate`) if set,
inner lines indented a further two spaces when `indent` is non-empty. -/
def SitemapEntry.toXml (P : Platform) (e : SitemapEntry) (indent : List Char) : List Char :=
  let ii := if indent ≠ [] then indent ++ "  ".toList else []
  indent ++ "<url>\n".toList
    ++ ii ++ "<loc>".toList ++ renderUrl e.url ++ "</loc>\n".toList
    ++ (if truthyCF e.changeFrequency then
          ii ++ "<changefreq>".toList ++ (e.changeFrequency.getD [])
            ++ "</changefreq>\n".toList
        else [])
    ++ (if truthy e.priorityF && strictNeHalf e.priorityF then
          ii ++ "<priority>".toList ++ jsRenderVal P e.priorityF
            ++ "</priority>\n".toList
        else [])
    ++ (match e.lastModifiedF with
        | some d => ii ++ "<lastmod>".toList ++ formatDate d ++ "</lastmod>\n".toList
        | none => [])
    ++ indent ++ "</url>".toList


/-! ## Path helpers (Node `path` builtins, posix) -/

/-- Split on `'/'` (boundary-preserving: `"/a/"` gives `["", "a", ""]`). -/
def splitSl : List Char → List (List Char)
  | [] => [[]]
  | c :: rest =>
    match splitSl rest with
    | [] => [[c]]
    | h :: t => if c = '/' then [] :: h :: t else (c :: h) :: t

/-- Join with `'/'` (left inverse of `splitSl`). -/
def joinSl : List (List Char) → List Char
  | [] => []
  | [s] => s
  | s :: rest => s ++ '/' :: joinSl rest

/-- One step of Node's `normalizeString` over segments, accumulator
reversed: drop empty and `.` segments; on `..` pop a previous real
segment, or keep the `..` when ascending above the start is allowed
(relative paths). -/
def normSegsStep (allowAbove : Bool) (acc : List (List Char)) (s : List Char) :
    List (List Char) :=
  if s = [] ∨ s = ['.'] then acc
  else if s = ['.', '.'] then
    match acc with
    | [] => if allowAbove then [s] else []
    | t :: rest =>
      if t = ['.', '.'] then (if allowAbove then s :: acc else acc) else rest
  else s :: acc

def normSegs (allowAbove : Bool) (segs : List (List Char)) : List (List Char) :=
  (segs.foldl (normSegsStep allowAbove) []).reverse

/-- Node `path.normalize` for posix paths: resolve `.`/`..`/repeated
separators, preserving absoluteness and a trailing separator. -/
def pathNormalize (p : List Char) : List Char :=
  if p = [] then ['.']
  else
    let isAbs := p.head? = some '/'
    let trail := p.getLast? = some '/'
    let body := joinSl (normSegs (!isAbs) (splitSl p))
    if body = [] then
      if isAbs then ['/'] else if trail then ['.', '/'] else ['.']
    else
      let body2 := if trail then body ++ ['/'] else body
      if isAbs then '/' :: body2 else body2

/-- Node `path.join(a, b)` for two non-empty parts: concatenate with a
separator and normalize. -/
def pathJoin (a b : List Char) : List Char := pathNormalize (a ++ '/' :: b)

/-- `createUrl(entry, prefix, ensureFinalSlash)` from `lib/generate.js`.
The URL prefix argument is `[]` when absent (`undefined` and `''` are
equally falsy there). -/
def createUrl (entry : List Char) (pre : List Char) (ensureFinalSlash : Bool) :
    List Char :=
  let e1 := if entry.head? = some '/' then entry.tail else entry
  let e2 := if pre ≠ [] then pathNormalize (pathJoin pre e1) else e1
  let e3 := if e2.head? = some '/' then e2 else '/' :: e2
  if ensureFinalSlash && !(e3.getLast? = some '/') then e3 ++ ['/'] else e3

/-- Node `path.extname` on a bare filename: the suffix from the last
dot, empty when there is no dot or the only dot is leading. -/
def extnameOf (s : List Char) : List Char :=
  if s = ['.'] ∨ s = ['.', '.'] then []
  else
    let rev := s.reverse
    let afterDot := rev.takeWhile (fun c => ¬(c = '.'))
    if afterDot.length + 1 ≤ s.length then
      if s.length - afterDot.length - 1 = 0 then []
      else '.' :: afterDot.reverse
    else []

/-! ## Scanner configuration (`lib/generate.js`) -/

/-- `ext` option: a list of extensions or a custom predicate. -/
inductive ExtOpt where
  | exts (l : List (List Char)) : ExtOpt
  | efn (f : List Char → Bool) : ExtOpt

/-- File stats, as far as the scanner consumes them. -/
structure Stats where
  mtime : Int

/-- `lastModified` option: literal `true` (use `stats.mtime`), a literal
value, or a callback `(url, stats, filename) -> value`. -/
inductive LMOpt where
  | mtimeTrue : LMOpt
  | value (v : JSValue) : LMOpt
  | fn (f : List Char → Stats → List Char → JSValue) : LMOpt

/-- `changeFrequency` option: literal value or callback. -/
inductive CFOpt where
  | value (v : Option (List Char)) : CFOpt
  | fn (f : List Char → Stats → List Char → Option (List Char)) : CFOpt

/-- `priority` option: literal value or callback. -/
inductive PROpt where
  | value (v : JSValue) : PROpt
  | fn (f : List Char → Stats → List Char → JSValue) : PROpt

/-- The merged scanner configuration.  `pre` is the accumulated URL
prefix (the source's `options.prefix`; `[]` models absent). -/
structure Options where
  ext : ExtOpt
  index : List (List Char)
  lastModified : LMOpt
  includeSitemap : Bool
  changeFrequency : CFOpt
  priority : PROpt
  pre : List Char

/-- `defaultOptions` from `lib/generate.js`: the fields it does not
mention are `undefined` (`CFOpt.value none`, `PROpt.value .undef`,
`pre = []`). -/
def defaultOptions : Options :=
  { ext := .exts [".html".toList, ".htm".toList],
    index := ["index.html".toList, "index.htm".toList],
    lastModified := .mtimeTrue,
    includeSitemap := true,
    changeFrequency := .value none,
    priority := .value .undef,
    pre := [] }

/-- A caller-supplied configuration: any subset of the recognized keys. -/
structure PartialOptions where
  ext : Option ExtOpt := none
  index : Option (List (List Char)) := none
  lastModified : Option LMOpt := none
  includeSitemap : Option Bool := none
  changeFrequency : Option CFOpt := none
  priority : Option PROpt := none
  pre : Option (List Char) := none

/-- `extend(defaultOptions, options || {})`: a mentioned key overrides
the default. -/
def mergeOptions (po : PartialOptions) : Options :=
  { ext := po.ext.getD defaultOptions.ext,
    index := po.index.getD defaultOptions.index,
    lastModified := po.lastModified.getD defaultOptions.lastModified,
    includeSitemap := po.includeSitemap.getD defaultOptions.includeSitemap,
    changeFrequency := po.changeFrequency.getD defaultOptions.changeFrequency,
    priority := po.priority.getD defaultOptions.priority,
    pre := po.pre.getD defaultOptions.pre }

/-! ## Directory scanner (`lib/generate.js`) -/

/-- The filter predicate of `filterEntries`: keep `sitemap.xml`
unconditionally when asked to, otherwise apply the extension filter
(a file with no extension always passes the list filter). -/
def keepEntry (ext : ExtOpt) (keepSitemap : Bool) (n : List Char) : Bool :=
  if keepSitemap && (n == "sitemap.xml".toList) then true
  else
    match ext with
    | .exts l => extnameOf n = [] ∨ extnameOf n ∈ l
    | .efn f => f n

/-- `filterEntries` from the source. -/
def filterEntries (entries : List (List Char)) (ext : ExtOpt) (keepSitemap : Bool) :
    List (List Char) :=
  entries.filter (keepEntry ext keepSitemap)

mutual
/-- An abstract directory tree (the filesystem the scanner walks).
`other` covers the entry kinds that are neither files nor directories. -/
inductive FSNode where
  | file (mtime : Int) (contents : List Char) : FSNode
  | dirNode (entries : FSEntries) : FSNode
  | other : FSNode
inductive FSEntries where
  | nil : FSEntries
  | cons (name : List Char) (node : FSNode) (rest : FSEntries) : FSEntries
end

def namesOf : FSEntries → List (List Char)
  | .nil => []
  | .cons name _ rest => name :: namesOf rest

def lookupFS (n : List Char) : FSEntries → Option FSNode
  | .nil => none
  | .cons name node rest => if name = n then some node else lookupFS n rest

/-- `/^\w+:/.test(url)`: a non-empty run of word characters followed by
a colon. -/
def isWordCharB (c : Char) : Bool :=
  ('a' ≤ c ∧ c ≤ 'z') ∨ ('A' ≤ c ∧ c ≤ 'Z') ∨ isDigitB c ∨ c = '_'

def reProtoB (s : List Char) : Bool :=
  let w := s.takeWhile isWordCharB
  ¬(w = []) ∧ (s.drop w.length).head? = some ':'

/-- `createSitemapEntry(entry, options, stats, isFile)` from the source:
build the URL, then assign `url`, `changeFrequency`, `priority` and
`lastModified` in that order (the latter two through the throwing
setters). -/
def createSitemapEntry (P : Platform) (entry : List Char) (opts : Options)
    (stats : Stats) (isFile : Bool) : Except JsErr SitemapEntry := do
  let url := createUrl entry opts.pre isFile
  let cf :=
    match opts.changeFrequency with
    | .value v => v
    | .fn f => f url stats entry
  let pr :=
    match opts.priority with
    | .value v => v
    | .fn f => f url stats entry
  let e0 : SitemapEntry :=
    { SitemapEntry.init with url := some url, changeFrequency := cf }
  let e1 ← setPriority e0 pr
  match opts.lastModified with
  | .mtimeTrue => setLastModified P e1 (.date (.valid stats.mtime))
  | .value v => setLastModified P e1 v
  | .fn f => setLastModified P e1 (f url stats entry)

/-- The URL rewriting `getEmbeddedSitemap` applies to one parsed item:
an item whose `url` matches `/^\w+:/` is kept unchanged; otherwise the
code calls `createUrl(item.url, options.prefix)`.  The `GENERATE_MAP`
marker (a bare object) has no `url`, so the regular expression test is
false and `createUrl(undefined, ..)[0]` throws a `TypeError`; an entry
with a `null` url fails the same way. -/
def rewriteItem (pre : List Char) : Item → Except JsErr Item
  | .generateMarker => .error .typeError
  | .entry e =>
    match e.url with
    | none => .error .typeError
    | some u =>
      if reProtoB u then .ok (.entry e)
      else .ok (.entry { e with url := some (createUrl u pre false) })

/-- `items.map(..)` with a throwing callback: the first throw aborts. -/
def rewriteItems (pre : List Char) : List Item → Except JsErr (List Item)
  | [] => .ok []
  | it :: rest => do
    let x ← rewriteItem pre it
    let xs ← rewriteItems pre rest
    .ok (x :: xs)

/-- `getEmbeddedSitemap` from the source: parse the file contents as a
document (`new Sitemap(contents)`), then rewrite every item's URL under
the current prefix.  There is no marker expansion here. -/
def getEmbeddedSitemap (P : Platform) (pd : List Char → DomNodes)
    (contents : List Char) (opts : Options) : Except JsErr (List Item) := do
  let items ← sitemapNew P pd (.str contents)
  rewriteItems opts.pre items

mutual
/-- `scanDir` from the source, on the abstract tree: list the directory,
filter, short-circuit to the embedded sitemap when `includeSitemap` and a
`sitemap.xml` survives the filter, otherwise walk the entries in order. -/
def scanDir (P : Platform) (pd : List Char → DomNodes) (opts : Options) :
    FSNode → Except JsErr (List Item)
  | .file _ _ => .error .ioError
  | .other => .error .ioError
  | .dirNode es =>
    let filtered := filterEntries (namesOf es) opts.ext opts.includeSitemap
    if opts.includeSitemap && filtered.contains "sitemap.xml".toList then
      match lookupFS "sitemap.xml".toList es with
      | some (.file _ contents) => getEmbeddedSitemap P pd contents opts
      | _ => .error .ioError
    else scanEntriesGo P pd opts es
/-- The sequential `next` loop of `scanDir`: an index file contributes
the directory's URL, another file contributes `prefix + filename`, a
subdirectory recurses with an extended prefix, other kinds are skipped. -/
def scanEntriesGo (P : Platform) (pd : List Char → DomNodes) (opts : Options) :
    FSEntries → Except JsErr (List Item)
  | .nil => .ok []
  | .cons name node rest =>
    if keepEntry opts.ext opts.includeSitemap name then
      match node with
      | .file mtime _ => do
        let e ←
          if name ∈ opts.index then createSitemapEntry P [] opts ⟨mtime⟩ true
          else createSitemapEntry P name opts ⟨mtime⟩ false
        let rs ← scanEntriesGo P pd opts rest
        .ok (.entry e :: rs)
      | .dirNode es' => do
        let sub ← scanDir P pd { opts with pre := createUrl name opts.pre true } (.dirNode es')
        let rs ← scanEntriesGo P pd opts rest
        .ok (sub ++ rs)
      | .other => scanEntriesGo P pd opts rest
    else scanEntriesGo P pd opts rest
end

/-- The exported `generate(dir, options, callback)`: merge the defaults,
scan, and wrap the resulting item array in a document (`new Sitemap`
on an array returns it unchanged). -/
def generate (P : Platform) (pd : List Char → DomNodes) (po : PartialOptions)
    (root : FSNode) : Except JsErr (List Item) := do
  let items ← scanDir P pd (mergeOptions po) root
  sitemapNew P pd (.arr items)

/-! ## Concrete instances used by witnesses and counterexamples -/

/-- A fixed platform instance for concrete evaluations (the abstract
builtins never matter on the inputs it is applied to). -/
def samplePlatform : Platform :=
  { fracMs := fun _ => 0, mkLocal := fun _ _ _ => 0,
    numRender := fun _ => [], dateRender := [] }

/-- A processing-instruction child node. -/
def piChildNode : DomNode := .mk .pi (some "?generate".toList) [] .nil

/-- A text node. -/
def textChildNode : DomNode := .mk .text none "x".toList .nil

/-- A `<loc>` element holding the given text. -/
def locChild (u : List Char) : DomNode :=
  .mk .tag (some "loc".toList) [] (.cons (.mk .text none u .nil) .nil)

/-- A `<url>` element whose only field is `<loc>foo/</loc>`. -/
def urlChildFoo : DomNode :=
  .mk .tag (some "url".toList) [] (.cons (locChild "foo/".toList) .nil)

/-- A `urlset` element (an ordinary tag node, as `htmlparser2` produces)
containing one `<url>` child and one processing-instruction child. -/
def urlsetTagWithPi : DomNode :=
  .mk .tag (some "urlset".toList) [] (.cons urlChildFoo (.cons piChildNode .nil))

/-- A node *named* `urlset` whose own type is `pi` — the only shape on
which the source's `node.type === 'pi'` check can fire. -/
def urlsetPiTyped : DomNode :=
  .mk .pi (some "urlset".toList) [] (.cons textChildNode .nil)

def domWithPi : DomNodes := .cons urlsetTagWithPi .nil

def domProducingMarker : DomNodes := .cons urlsetPiTyped .nil

/-- Scanner options as they stand when the scan reaches the directory
`about/embedded-pi` of the processing-instruction test fixture. -/
def aboutOpts : Options := { defaultOptions with pre := "/about/embedded-pi/".toList }

/-- The entry parsed from `urlChildFoo`. -/
def fooEntry : SitemapEntry := { SitemapEntry.init with url := some "foo/".toList }

/-- The same entry after URL rewriting under `aboutOpts`. -/
def fooEntryRewritten : SitemapEntry :=
  { SitemapEntry.init with url := some "/about/embedded-pi/foo/".toList }

/-- One `priority` assignment as it executes: a setter that throws
leaves the backing field unchanged (the throw happens before the
store). -/
def setPriorityRun (e : SitemapEntry) (v : JSValue) : SitemapEntry :=
  match setPriority e v with
  | .ok e' => e'
  | .error _ => e

/-! ## Occurrence predicates for serialized output

`SitemapEntry.toXml` output is analysed through substring occurrence:
`occursIn needle hay` and an ordered-occurrence predicate.  The output
is decomposed into tokens — `'<'`-free runs and tag openings — to reason
about which elements appear. -/

/-- `needle` occurs as a contiguous substring of `hay`. -/
def occursIn (needle hay : List Char) : Prop :=
  ∃ a b, hay = a ++ needle ++ b

/-- The given needles occur in `hay`, disjointly and in order. -/
def inOrder : List (List Char) → List Char → Prop
  | [], _ => True
  | n :: ns, h => ∃ a b, h = a ++ n ++ b ∧ inOrder ns b

/-- A token of the serialized entry: a `'<'`-free run, or a tag opening
(rendered as `'<' :: w`). -/
inductive XTok where
  | raw (s : List Char) : XTok
  | tag (w : List Char) : XTok
deriving DecidableEq

/-- Concatenate tokens back into the output string. -/
def xcat : List XTok → List Char
  | [] => []
  | .raw s :: ts => s ++ xcat ts
  | .tag w :: ts => '<' :: (w ++ xcat ts)

/-- The two lists disagree at some position below both lengths (so
neither can be a prefix of an extension of the other). -/
def mismatchB : List Char → List Char → Bool
  | c :: w, c' :: w' => if c = c' then mismatchB w w' else true
  | _, _ => false

/-- The token decomposition of `SitemapEntry.toXml` output. -/
def entryTokens (P : Platform) (e : SitemapEntry) (indent : List Char) : List XTok :=
  let ii := if indent ≠ [] then indent ++ "  ".toList else []
  [.raw indent, .tag "url>\n".toList, .raw ii, .tag "loc>".toList,
   .raw (renderUrl e.url), .tag "/loc>\n".toList]
  ++ (if truthyCF e.changeFrequency then
        [.raw ii, .tag "changefreq>".toList, .raw (e.changeFrequency.getD []),
         .tag "/changefreq>\n".toList]
      else [])
  ++ (if truthy e.priorityF && strictNeHalf e.priorityF then
        [.raw ii, .tag "priority>".toList, .raw (jsRenderVal P e.priorityF),
         .tag "/priority>\n".toList]
      else [])
  ++ (match e.lastModifiedF with
      | some d => [.raw ii, .tag "lastmod>".toList, .raw (formatDate d),
                   .tag "/lastmod>\n".toList]
      | none => [])
  ++ [.raw indent, .tag "/url>".toList]

/-- The bodies of the element tags an entry's serialization emits, in
emission order. -/
def presentTagBodies (e : SitemapEntry) : List (List Char) :=
  ["loc>".toList]
  ++ (if truthyCF e.changeFrequency then ["changefreq>".toList] else [])
  ++ (if truthy e.priorityF && strictNeHalf e.priorityF then ["priority>".toList] else [])
  ++ (match e.lastModifiedF with | some _ => ["lastmod>".toList] | none => [])

/-! ## Well-formedness of URL prefixes and relative URLs (claim C5) -/

/-- A path segment that normalization passes through untouched:
non-empty, not `.` or `..`, and slash-free. -/
def goodSegB (s : List Char) : Bool :=
  ¬(s = []) ∧ ¬(s = ['.']) ∧ ¬(s = ['.', '.']) ∧ ¬('/' ∈ s)

/-- Good segments followed by a final empty segment (the split image of
`seg₁/…/segₙ/`). -/
def segsThenSlash : List (List Char) → Bool
  | [] => false
  | [s] => s.isEmpty
  | s :: rest => goodSegB s && segsThenSlash rest

/-- Good segments with an optional final empty segment (the split image
of a clean relative URL, optionally slash-terminated). -/
def segsRel : List (List Char) → Bool
  | [] => false
  | [s] => goodSegB s
  | [s, t] => goodSegB s && (t.isEmpty || goodSegB t)
  | s :: rest => goodSegB s && segsRel rest

/-- A well-formed accumulated URL prefix, as the scanner builds them:
absolute, slash-terminated, at least one clean segment (`"/about/"`). -/
def goodPreB (pre : List Char) : Bool :=
  match splitSl pre with
  | [] :: rest => decide (2 ≤ rest.length) && segsThenSlash rest
  | _ => false

/-- A well-formed relative URL for an embedded-sitemap entry: after
stripping one optional leading slash, clean segments with an optional
trailing slash (`"embedded/help/"`). -/
def goodRelB (u : List Char) : Bool :=
  segsRel (splitSl (if u.head? = some '/' then u.tail else u))

/-- Every parsed item is an entry with a set URL. -/
def allEntriesWithUrl (items : List Item) : Bool :=
  items.all fun it =>
    match it with
    | .entry e => e.url.isSome
    | .generateMarker => false

/-- Every parsed item's URL is either scheme-absolute or well-formed
relative. -/
def allRelGood (items : List Item) : Bool :=
  items.all fun it =>
    match it with
    | .entry e =>
      match e.url with
      | some u => reProtoB u || goodRelB u
      | none => false
    | .generateMarker => false

/-- Modelled from the spec for C5 (the refinement target the code's
`rewriteItem` is compared against): an item whose URL has a `scheme:`
prefix is left unchanged; any other is rewritten to the current
directory's URL prefix followed by the URL, a single leading slash
stripped. -/
def specRewriteItem (pre : List Char) : Item → Item
  | .generateMarker => .generateMarker
  | .entry e =>
    match e.url with
    | none => .entry e
    | some u =>
      if reProtoB u then .entry e
      else .entry { e with url := some (pre ++ (if u.head? = some '/' then u.tail else u)) }

/-- A `<url>` element whose `<loc>` is the given text. -/
def urlChildWithLoc (u : List Char) : DomNode :=
  .mk .tag (some "url".toList) [] (.cons (locChild u) .nil)

/-- An embedded document with one relative and one scheme-absolute URL. -/
def embeddedDomC5 : DomNodes :=
  .cons (.mk .tag (some "urlset".toList) []
    (.cons (urlChildWithLoc "embedded/".toList)
      (.cons (urlChildWithLoc "mailto:x@y".toList) .nil))) .nil

/-- Scanner options as they stand inside the `about` directory. -/
def optsC5 : Options := { defaultOptions with pre := "/about/".toList }

/-- A directory containing only a `sitemap.xml`. -/
def esC5 : FSEntries := .cons "sitemap.xml".toList (.file 7 "raw".toList) .nil

/-- The items `embeddedDomC5` parses to. -/
def itemsC5 : List Item :=
  [.entry { SitemapEntry.init with url := some "embedded/".toList },
   .entry { SitemapEntry.init with url := some "mailto:x@y".toList }]

/-- The explicit timezone offset in milliseconds (`+hh:mm` positive);
the source's adjustment subtracts exactly this (`offAdjust o = -tzOffsetMs o`). -/
def tzOffsetMs : TzOff → Int
  | .zulu => 0
  | .plus hh mm => ((hh : Int) * 60 + mm) * 60 * 1000
  | .minus hh mm => -(((hh : Int) * 60 + mm) * 60 * 1000)

/-! # Theorems -/

/-! ## Decimal rendering: bridge to `Nat.digits` -/

theorem natDigsGo_digits : ∀ fuel n acc, n ≤ fuel →
    natDigsGo fuel n acc = ((Nat.digits 10 n).reverse.map digitChar) ++ acc := by
  intro fuel
  induction fuel with
  | zero =>
    intro n acc h
    have h0 : n = 0 := by omega
    subst h0
    simp [natDigsGo]
  | succ m ih =>
    intro n acc h
    match n with
    | 0 => simp [natDigsGo]
    | k + 1 =>
      rw [show natDigsGo (m + 1) (k + 1) acc
          = natDigsGo m ((k + 1) / 10) (digitChar ((k + 1) % 10) :: acc) from rfl]
      rw [ih ((k + 1) / 10) _ (by omega)]
      rw [Nat.digits_def' (show (1:ℕ) < 10 by norm_num) (show 0 < k + 1 by omega)]
      simp [List.append_assoc]

theorem natDigs_eq (n : Nat) :
    natDigs n = if n = 0 then ['0'] else ((Nat.digits 10 n).reverse).map digitChar := by
  unfold natDigs
  by_cases h : n = 0
  · simp [h]
  · simp [h, natDigsGo_digits n n [] le_rfl]

/-! ## Claims C1, C2 (the processing-instruction extension point) -/

/-- C1: the claim says a processing-instruction marker inside an
embedded sitemap is replaced in place by the entries of a recursive scan
of the current directory, each inheriting the current prefix.  The code
has no such logic: when the parse actually yields a marker (only
possible through a `pi`-*typed* `urlset`), the URL-rewriting pass throws
a `TypeError` instead of splicing anything; and for the ordinary shape
— a tag-typed `urlset` with a `pi` child, as in the repository's
`site-pi` test fixture — no marker is ever appended, so the embedded
document contributes only its static entries and no recursive scan
happens.  This contradicts the spec and the repository's own
`generate with processing instruction` test. -/
theorem claim_C1 :
    getEmbeddedSitemap samplePlatform (fun _ => domProducingMarker)
        "<urlset/>".toList aboutOpts = .error .typeError
    ∧ getEmbeddedSitemap samplePlatform (fun _ => domWithPi)
        "<urlset/>".toList aboutOpts = .ok [.entry fooEntryRewritten]
    ∧ rewriteItems aboutOpts.pre [Item.generateMarker] = .error .typeError := by
  exact ⟨by decide, by decide, by decide⟩

/-- C2: the claim says that while parsing, every processing-instruction
child of a top-level `urlset` appends the generate-marker to the item
list in that child's position.  The code instead tests
`node.type === 'pi'` on the *parent* `urlset` node (never `pi` for an
element found by tag name), so a `pi` child contributes nothing: a
`urlset` holding one `<url>` and one processing instruction parses to
the single entry, with no marker. -/
theorem claim_C2 :
    parseUrlsetNode samplePlatform urlsetTagWithPi = .ok [.entry fooEntry]
    ∧ parseSitemapDom samplePlatform domWithPi = .ok [.entry fooEntry]
    ∧ parseUrlsetNode samplePlatform
        (.mk .tag (some "urlset".toList) [] (.cons piChildNode .nil)) = .ok [] := by
  exact ⟨by decide, by decide, by decide⟩

/-! ## Claim C3 (the `Sitemap` constructor) -/

/-- C3: the `Sitemap` constructor maps any falsy argument (omitted,
`null`, empty string, …) to the empty item list, parses a non-empty
string, adopts an array unchanged, and rejects every other (truthy)
input with `InvalidSitemapContents`. -/
theorem claim_C3 (P : Platform) (pd : List Char → DomNodes) :
    (∀ a, truthyArg a = false → sitemapNew P pd a = .ok [])
    ∧ (∀ s, s ≠ [] → sitemapNew P pd (.str s) = parseSitemapDom P (pd s))
    ∧ (∀ items, sitemapNew P pd (.arr items) = .ok items)
    ∧ (∀ a, truthyArg a = true → (∀ s, a ≠ .str s) → (∀ l, a ≠ .arr l) →
        sitemapNew P pd a = .error .invalidSitemapContents) := by
  refine ⟨fun a h => by simp [sitemapNew, h], fun s h => ?_, fun items => ?_, fun a ht hs ha => ?_⟩
  · simp [sitemapNew, truthyArg, h]
  · simp [sitemapNew, truthyArg]
  · cases a with
    | undef => simp [truthyArg] at ht
    | null => simp [truthyArg] at ht
    | boolean b => cases b with
      | false => simp [truthyArg] at ht
      | true => simp [sitemapNew, truthyArg]
    | num n => cases n with
      | nan => simp [truthyArg] at ht
      | val q => simp [truthyArg] at ht; simp [sitemapNew, truthyArg, ht]
    | str s => exact absurd rfl (hs s)
    | arr l => exact absurd rfl (ha l)
    | obj => simp [sitemapNew, truthyArg]

/-- C3 witness: evaluated at `undefined`, a non-empty string, an array
and a truthy number. -/
theorem claim_C3_witness :
    truthyArg .undef = false ∧ "x".toList ≠ []
    ∧ sitemapNew samplePlatform (fun _ => domWithPi) .undef = .ok []
    ∧ sitemapNew samplePlatform (fun _ => domWithPi) (.str "x".toList)
        = parseSitemapDom samplePlatform domWithPi
    ∧ sitemapNew samplePlatform (fun _ => domWithPi) (.arr [Item.generateMarker])
        = .ok [Item.generateMarker]
    ∧ sitemapNew samplePlatform (fun _ => domWithPi) (.num (.val 3))
        = .error .invalidSitemapContents := by
  refine ⟨by decide, by decide,
    (claim_C3 samplePlatform _).1 .undef (by decide),
    (claim_C3 samplePlatform _).2.1 "x".toList (by decide),
    (claim_C3 samplePlatform _).2.2.1 [Item.generateMarker],
    (claim_C3 samplePlatform _).2.2.2 (.num (.val 3)) (by decide)
      (fun s h => CtorArg.noConfusion h) (fun l h => CtorArg.noConfusion h)⟩

/-! ## Claim C4 (the default of `includeSitemap`) -/

/-- C4 counterexample: the claim says the default configuration has
`includeSitemap = false`; in `lib/generate.js` the default is `true`
(the repository's 6-entry scenario passes `includeSitemap: false`
explicitly). -/
theorem claim_C4_counterexample :
    ¬ ((mergeOptions {}).includeSitemap = false) := by decide

/-- C4 (amended): a configuration that does not mention `includeSitemap`
is merged to `includeSitemap = true`; it remains true that when
`includeSitemap` is `false` — as the default-config scenario passes
explicitly — a `sitemap.xml` file cannot trigger the embedded-sitemap
short-circuit: the default extension filter drops it and the
short-circuit branch is not taken. -/
theorem claim_C4 (po : PartialOptions) (hpo : po.includeSitemap = none) :
    (mergeOptions po).includeSitemap = true
    ∧ (∀ names, "sitemap.xml".toList ∉ filterEntries names defaultOptions.ext false)
    ∧ (∀ (P : Platform) (pd : List Char → DomNodes) (opts : Options) (es : FSEntries),
        opts.includeSitemap = false →
        scanDir P pd opts (.dirNode es) = scanEntriesGo P pd opts es) := by
  refine ⟨by simp [mergeOptions, hpo]; rfl, fun names hmem => ?_, fun P pd opts es h => ?_⟩
  · have h2 := (List.mem_filter.mp hmem).2
    have h3 : keepEntry defaultOptions.ext false "sitemap.xml".toList = false := by decide
    rw [h3] at h2
    exact Bool.false_ne_true h2
  · rw [scanDir]
    simp [h]

/-- C4 witness: the amended statement at the empty configuration, a
concrete listing and a concrete directory. -/
theorem claim_C4_witness :
    ({} : PartialOptions).includeSitemap = none
    ∧ (mergeOptions {}).includeSitemap = true
    ∧ "sitemap.xml".toList ∉
        filterEntries ["index.html".toList, "sitemap.xml".toList] defaultOptions.ext false
    ∧ scanDir samplePlatform (fun _ => .nil) { defaultOptions with includeSitemap := false }
        (.dirNode .nil)
      = scanEntriesGo samplePlatform (fun _ => .nil)
          { defaultOptions with includeSitemap := false } .nil := by
  refine ⟨rfl, (claim_C4 {} rfl).1, (claim_C4 {} rfl).2.1 _, ?_⟩
  exact (claim_C4 {} rfl).2.2 samplePlatform (fun _ => .nil)
    { defaultOptions with includeSitemap := false } .nil rfl

/-! ## Claim C6 (the `priority` setter) -/

/-- C6 counterexample: the claim's parenthetical says priority can never
be set to `0` through the setter; assigning the *string* `"0"` is truthy,
parses to `0`, and is stored. -/
theorem claim_C6_counterexample :
    setPriority SitemapEntry.init (.str ['0'])
      = .ok { SitemapEntry.init with priorityF := .num (.val 0) } := by decide

/-- C6 (amended): assigning any falsy value (`0`, `NaN`, the empty
string, `null`, `undefined`, `false`) to `priority` is a no-op keeping
the current value — so the *number* `0` can never be stored, though the
numeric string `"0"` can store `0`; a non-numeric string fails with
`InvalidPriority`; a numeric string stores its parsed value; before any
successful assignment the value is `0.5`. -/
theorem claim_C6 :
    SitemapEntry.init.priorityF = .num (.val (mkRat 1 2))
    ∧ (∀ e v, truthy v = false → setPriority e v = .ok e)
    ∧ (∀ e s, s ≠ [] → jsParseFloat s = .nan →
        setPriority e (.str s) = .error .invalidPriority)
    ∧ (∀ e s q, s ≠ [] → jsParseFloat s = .val q →
        setPriority e (.str s) = .ok { e with priorityF := .num (.val q) }) := by
  refine ⟨rfl, fun e v h => by simp [setPriority, h], fun e s hne hp => ?_, fun e s q hne hp => ?_⟩
  · have ht : truthy (.str s) = true := by simp [truthy, hne]
    simp [setPriority, ht, jsToStringCoarse, hp]
  · have ht : truthy (.str s) = true := by simp [truthy, hne]
    simp [setPriority, ht, jsToStringCoarse, hp]

/-- C6 witness: the amended statement evaluated at `0`, at a non-numeric
string and at the numeric string `"0.8"`. -/
theorem claim_C6_witness :
    truthy (.num (.val 0)) = false
    ∧ setPriority SitemapEntry.init (.num (.val 0)) = .ok SitemapEntry.init
    ∧ jsParseFloat "beta".toList = .nan
    ∧ setPriority SitemapEntry.init (.str "beta".toList) = .error .invalidPriority
    ∧ jsParseFloat "0.8".toList = .val (mkRat 4 5)
    ∧ setPriority SitemapEntry.init (.str "0.8".toList)
        = .ok { SitemapEntry.init with priorityF := .num (.val (mkRat 4 5)) } := by
  refine ⟨by decide, claim_C6.2.1 SitemapEntry.init _ (by decide), by decide, ?_, by decide, ?_⟩
  · exact claim_C6.2.2.1 SitemapEntry.init "beta".toList (by decide) (by decide)
  · exact claim_C6.2.2.2 SitemapEntry.init "0.8".toList (mkRat 4 5) (by decide) (by decide)

/-! ## Claim C10 (the priority field is always a real number) -/

/-- Core invariant step: one executed assignment preserves
"`priorityF` is a non-`NaN` number". -/
theorem setPriorityRun_preserves (e : SitemapEntry) (v : JSValue)
    (h : ∃ q : Rat, e.priorityF = .num (.val q)) :
    ∃ q : Rat, (setPriorityRun e v).priorityF = .num (.val q) := by
  obtain ⟨q, hq⟩ := h
  by_cases ht : truthy v = false
  · exact ⟨q, by simp [setPriorityRun, setPriority, ht, hq]⟩
  · cases v with
    | num n =>
      cases n with
      | nan => simp [truthy] at ht
      | val q' => exact ⟨q', by simp [setPriorityRun, setPriority, ht]⟩
    | undef => simp [truthy] at ht
    | null => simp [truthy] at ht
    | boolean b =>
      cases hp : jsParseFloat (jsToStringCoarse (.boolean b)) with
      | nan => exact ⟨q, by simp [setPriorityRun, setPriority, ht, hp, hq]⟩
      | val q' => exact ⟨q', by simp [setPriorityRun, setPriority, ht, hp]⟩
    | str s =>
      cases hp : jsParseFloat (jsToStringCoarse (.str s)) with
      | nan => exact ⟨q, by simp [setPriorityRun, setPriority, ht, hp, hq]⟩
      | val q' => exact ⟨q', by simp [setPriorityRun, setPriority, ht, hp]⟩
    | date d =>
      cases hp : jsParseFloat (jsToStringCoarse (.date d)) with
      | nan => exact ⟨q, by simp [setPriorityRun, setPriority, ht, hp, hq]⟩
      | val q' => exact ⟨q', by simp [setPriorityRun, setPriority, ht, hp]⟩

/-- Fold form of the invariant. -/
theorem foldl_setPriorityRun_num (e : SitemapEntry)
    (h : ∃ q : Rat, e.priorityF = .num (.val q)) :
    ∀ vs : List JSValue, ∃ q : Rat, (vs.foldl setPriorityRun e).priorityF = .num (.val q)
  | [] => h
  | v :: vs => foldl_setPriorityRun_num (setPriorityRun e v)
      (setPriorityRun_preserves e v h) vs

/-- C10: starting from a fresh entry (priority `0.5`), after any
sequence of priority assignments the field holds a non-`NaN` number
(never `NaN`, `null` or `undefined`); assigning `NaN` in particular is a
no-op, because `NaN` is falsy and hits the falsy-input guard. -/
theorem claim_C10 (vs : List JSValue) :
    (∃ q : Rat, (vs.foldl setPriorityRun SitemapEntry.init).priorityF = .num (.val q))
    ∧ (∀ e, setPriorityRun e (.num .nan) = e)
    ∧ SitemapEntry.init.priorityF = .num (.val (mkRat 1 2)) :=
  ⟨foldl_setPriorityRun_num SitemapEntry.init ⟨mkRat 1 2, rfl⟩ vs,
   fun e => by simp [setPriorityRun, setPriority, truthy],
   rfl⟩

/-! ## Claim C9 (entry serialization): occurrence machinery -/

theorem occursIn_prepend {n y : List Char} (x : List Char) (h : occursIn n y) :
    occursIn n (x ++ y) := by
  obtain ⟨a, b, rfl⟩ := h
  exact ⟨x ++ a, b, by simp [List.append_assoc]⟩

/-- Splitting an occurrence of `'<'` past a `'<'`-free part. -/
theorem lt_split {x y a c : List Char} (hx : '<' ∉ x) (h : x ++ y = a ++ '<' :: c) :
    ∃ a2, a = x ++ a2 ∧ y = a2 ++ '<' :: c := by
  induction x generalizing a with
  | nil => exact ⟨a, rfl, h⟩
  | cons ch x' ih =>
    cases a with
    | nil =>
      rw [List.nil_append] at h
      injection h with h1 h2
      simp [List.mem_cons, h1] at hx
    | cons a1 a' =>
      rw [List.cons_append, List.cons_append] at h
      injection h with h1 h2
      have hx' : '<' ∉ x' := fun hm => hx (List.mem_cons_of_mem _ hm)
      obtain ⟨a2, rfl, hy⟩ := ih hx' h2
      exact ⟨a2, by simp [h1], hy⟩

theorem occursIn_lt_elim {w x y : List Char} (hx : '<' ∉ x)
    (h : occursIn ('<' :: w) (x ++ y)) : occursIn ('<' :: w) y := by
  obtain ⟨a, b, hab⟩ := h
  have h2 : x ++ y = a ++ '<' :: (w ++ b) := by
    rw [hab]; simp [List.append_assoc]
  obtain ⟨a2, _, hy⟩ := lt_split hx h2
  exact ⟨a2, b, by rw [hy]; simp [List.append_assoc]⟩

theorem occursIn_tag_elim {w w' y : List Char} (hw' : '<' ∉ w')
    (h : occursIn ('<' :: w) ('<' :: (w' ++ y))) :
    (∃ b, w ++ b = w' ++ y) ∨ occursIn ('<' :: w) y := by
  obtain ⟨a, b, hab⟩ := h
  cases a with
  | nil =>
    rw [List.nil_append, List.cons_append] at hab
    injection hab with h1 h2
    exact .inl ⟨b, h2.symm⟩
  | cons a1 a' =>
    rw [List.cons_append] at hab
    injection hab with h1 h2
    have h3 : w' ++ y = a' ++ '<' :: (w ++ b) := by
      rw [h2]; simp [List.append_assoc]
    obtain ⟨a2, _, hy⟩ := lt_split hw' h3
    exact .inr ⟨a2, b, by rw [hy]; simp [List.append_assoc]⟩

theorem mismatchB_append_ne :
    ∀ {w w' : List Char}, mismatchB w w' = true → ∀ b y, w ++ b ≠ w' ++ y := by
  intro w
  induction w with
  | nil => intro w' h; simp [mismatchB] at h
  | cons c wr ih =>
    intro w' h b y heq
    cases w' with
    | nil => simp [mismatchB] at h
    | cons c' wr' =>
      rw [List.cons_append, List.cons_append] at heq
      injection heq with h1 h2
      rw [mismatchB] at h
      rw [h1] at h
      simp only [if_pos rfl] at h
      exact ih h b y h2

theorem xcat_append : ∀ ts us : List XTok, xcat (ts ++ us) = xcat ts ++ xcat us
  | [], _ => rfl
  | .raw s :: ts, us => by simp [xcat, xcat_append ts us]
  | .tag w :: ts, us => by simp [xcat, xcat_append ts us]

/-- No occurrence of `'<' :: w` in a token string whose raw runs are
`'<'`-free and whose tag bodies all mismatch `w`. -/
theorem not_occursIn_xcat (w : List Char) :
    ∀ ts : List XTok,
      (∀ s, XTok.raw s ∈ ts → '<' ∉ s) →
      (∀ w', XTok.tag w' ∈ ts → '<' ∉ w' ∧ mismatchB w w' = true) →
      ¬ occursIn ('<' :: w) (xcat ts) := by
  intro ts
  induction ts with
  | nil =>
    intro _ _ h
    obtain ⟨a, b, hab⟩ := h
    simp [xcat] at hab
  | cons t ts ih =>
    intro hraw htag h
    cases t with
    | raw s =>
      have hs : '<' ∉ s := hraw s (List.mem_cons_self _ _)
      have h2 := occursIn_lt_elim hs h
      exact ih (fun s' hm => hraw s' (List.mem_cons_of_mem _ hm))
        (fun w' hm => htag w' (List.mem_cons_of_mem _ hm)) h2
    | tag w' =>
      obtain ⟨hw', hmis⟩ := htag w' (List.mem_cons_self _ _)
      rcases occursIn_tag_elim hw' h with ⟨b, hb⟩ | h2
      · exact mismatchB_append_ne hmis b (xcat ts) hb
      · exact ih (fun s' hm => hraw s' (List.mem_cons_of_mem _ hm))
          (fun w'' hm => htag w'' (List.mem_cons_of_mem _ hm)) h2

/-- A tag token induces an occurrence of its opening. -/
theorem occursIn_xcat_tag {w : List Char} :
    ∀ ts : List XTok, XTok.tag w ∈ ts → occursIn ('<' :: w) (xcat ts) := by
  intro ts
  induction ts with
  | nil => intro h; cases h
  | cons t ts ih =>
    intro h
    rcases List.mem_cons.mp h with h1 | h2
    · cases h1
      exact ⟨[], xcat ts, by simp [xcat]⟩
    · cases t with
      | raw s => exact occursIn_prepend s (ih h2)
      | tag w' =>
        obtain ⟨a, b, hab⟩ := ih h2
        exact ⟨'<' :: w' ++ a, b, by simp [xcat, hab, List.append_assoc]⟩

theorem inOrder_prepend {ns : List (List Char)} {y : List Char} (x : List Char)
    (h : inOrder ns y) : inOrder ns (x ++ y) := by
  cases ns with
  | nil => trivial
  | cons n ns =>
    obtain ⟨a, b, hab, hrest⟩ := h
    exact ⟨x ++ a, b, by simp [hab, List.append_assoc], hrest⟩

/-- Tag tokens that form a subsequence of a token string occur in order
in its concatenation. -/
theorem inOrder_xcat :
    ∀ (ts : List XTok) (ns : List (List Char)),
      ns.Sublist (ts.filterMap fun t => match t with | .tag w => some w | .raw _ => none) →
      inOrder (ns.map (fun w => '<' :: w)) (xcat ts) := by
  intro ts
  induction ts with
  | nil =>
    intro ns h
    have : ns = [] := List.sublist_nil.mp (by simpa using h)
    subst this; trivial
  | cons t ts ih =>
    intro ns h
    cases t with
    | raw s =>
      simp only [List.filterMap_cons] at h
      exact inOrder_prepend s (ih ns h)
    | tag w =>
      simp only [List.filterMap_cons] at h
      cases ns with
      | nil => trivial
      | cons n ns' =>
        cases h with
        | cons _ h2 =>
          have h3 := ih (n :: ns') h2
          show inOrder (('<' :: n) :: ns'.map (fun w => '<' :: w)) ('<' :: (w ++ xcat ts))
          obtain ⟨a, b, hab, hrest⟩ := h3
          exact ⟨'<' :: w ++ a, b, by simp [hab, List.append_assoc], hrest⟩
        | cons₂ _ h2 =>
          exact ⟨[], xcat ts, by simp [xcat], ih ns' h2⟩

/-! ## Claim C9: serialized output facts -/

theorem mem_ite_nil {α : Type} {c : Prop} [Decidable c] {x : α} {l : List α} :
    (x ∈ if c then l else []) ↔ c ∧ x ∈ l := by
  split <;> simp_all

theorem mem_match_opt {α β : Type} {o : Option β} {f : β → List α} {x : α} :
    (x ∈ match o with | some d => f d | none => []) ↔ ∃ d, o = some d ∧ x ∈ f d := by
  cases o <;> simp

theorem natDigs_no_lt {n : Nat} : '<' ∉ natDigs n := by
  rw [natDigs_eq]
  split
  · decide
  · intro hmem
    simp only [List.mem_map, List.mem_reverse] at hmem
    obtain ⟨d, hd, hdeq⟩ := hmem
    have hlt : d < 10 := Nat.digits_lt_base (by norm_num) hd
    interval_cases d <;> exact absurd hdeq (by decide)

theorem intDigs_no_lt {i : Int} : '<' ∉ intDigs i := by
  unfold intDigs
  split
  · intro h
    rcases List.mem_cons.mp h with h1 | h2
    · exact absurd h1 (by decide)
    · exact natDigs_no_lt h2
  · exact natDigs_no_lt

theorem pad_no_lt {i : Int} : '<' ∉ pad i := by
  unfold pad
  intro h
  rcases List.mem_append.mp h with h1 | h2
  · split at h1
    · rcases List.mem_cons.mp h1 with h3 | h3
      · exact absurd h3 (by decide)
      · exact absurd h3 (List.not_mem_nil _)
    · exact absurd h1 (List.not_mem_nil _)
  · exact intDigs_no_lt h2

theorem formatDate_no_lt (d : JSDate) : '<' ∉ formatDate d := by
  cases d with
  | invalid => decide
  | valid t =>
    unfold formatDate
    intro h
    simp only [List.mem_append, List.mem_cons, List.mem_singleton, or_assoc] at h
    rcases h with h | h | h | h | h | h | h | h | h | h | h | h <;>
      first
        | exact intDigs_no_lt h
        | exact pad_no_lt h
        | simp at h

theorem toXml_eq_xcat (P : Platform) (e : SitemapEntry) (ind : List Char) :
    SitemapEntry.toXml P e ind = xcat (entryTokens P e ind) := by
  unfold SitemapEntry.toXml entryTokens
  cases hcf : truthyCF e.changeFrequency <;>
    cases hpr : truthy e.priorityF && strictNeHalf e.priorityF <;>
      cases hlm : e.lastModifiedF <;>
        simp [xcat, xcat_append, List.append_assoc]

theorem entryTokens_raw_lt {P : Platform} {e : SitemapEntry} {ind : List Char}
    (hind : '<' ∉ ind) (hurl : '<' ∉ renderUrl e.url)
    (hcf : '<' ∉ e.changeFrequency.getD []) (hpr : '<' ∉ jsRenderVal P e.priorityF) :
    ∀ s, XTok.raw s ∈ entryTokens P e ind → '<' ∉ s := by
  have hii : '<' ∉ (if ind ≠ [] then ind ++ "  ".toList else []) := by
    split
    · intro h
      rcases List.mem_append.mp h with h1 | h1
      · exact hind h1
      · exact absurd h1 (by decide)
    · exact List.not_mem_nil _
  intro s hs
  unfold entryTokens at hs
  cases hlm : e.lastModifiedF with
  | none =>
    rw [hlm] at hs
    simp only [List.mem_append, List.mem_cons, List.not_mem_nil, or_false,
      mem_ite_nil, XTok.raw.injEq, reduceCtorEq, false_or, or_assoc] at hs
    rcases hs with rfl | rfl | rfl | ⟨_, rfl | rfl⟩ | ⟨_, rfl | rfl⟩ | rfl <;>
      first
        | exact hind
        | exact hii
        | exact hurl
        | exact hcf
        | exact hpr
  | some d =>
    rw [hlm] at hs
    simp only [List.mem_append, List.mem_cons, List.not_mem_nil, or_false,
      mem_ite_nil, XTok.raw.injEq, reduceCtorEq, false_or, or_assoc] at hs
    rcases hs with rfl | rfl | rfl | ⟨_, rfl | rfl⟩ | ⟨_, rfl | rfl⟩ | rfl | rfl | rfl <;>
      first
        | exact hind
        | exact hii
        | exact hurl
        | exact hcf
        | exact hpr
        | exact formatDate_no_lt _

theorem entryTokens_tag_mem {P : Platform} {e : SitemapEntry} {ind w' : List Char}
    (h : XTok.tag w' ∈ entryTokens P e ind) :
    w' = "url>\n".toList ∨ w' = "loc>".toList ∨ w' = "/loc>\n".toList
    ∨ (truthyCF e.changeFrequency = true
        ∧ (w' = "changefreq>".toList ∨ w' = "/changefreq>\n".toList))
    ∨ ((truthy e.priorityF && strictNeHalf e.priorityF) = true
        ∧ (w' = "priority>".toList ∨ w' = "/priority>\n".toList))
    ∨ (e.lastModifiedF ≠ none
        ∧ (w' = "lastmod>".toList ∨ w' = "/lastmod>\n".toList))
    ∨ w' = "/url>".toList := by
  unfold entryTokens at h
  cases hlm : e.lastModifiedF with
  | none =>
    rw [hlm] at h
    simp only [List.mem_append, List.mem_cons, List.not_mem_nil, or_false,
      mem_ite_nil, XTok.tag.injEq, reduceCtorEq, false_or, or_assoc] at h
    rcases h with rfl | rfl | rfl | ⟨hc, rfl | rfl⟩ | ⟨hp, rfl | rfl⟩ | rfl <;> simp_all
  | some d =>
    rw [hlm] at h
    simp only [List.mem_append, List.mem_cons, List.not_mem_nil, or_false,
      mem_ite_nil, XTok.tag.injEq, reduceCtorEq, false_or, or_assoc] at h
    rcases h with rfl | rfl | rfl | ⟨hc, rfl | rfl⟩ | ⟨hp, rfl | rfl⟩ | rfl | rfl | rfl <;> simp_all

theorem not_occ_changefreq {P : Platform} {e : SitemapEntry} {ind : List Char}
    (hind : '<' ∉ ind) (hurl : '<' ∉ renderUrl e.url)
    (hcf : '<' ∉ e.changeFrequency.getD []) (hpr : '<' ∉ jsRenderVal P e.priorityF)
    (hcond : truthyCF e.changeFrequency = false) :
    ¬ occursIn ('<' :: "changefreq>".toList) (SitemapEntry.toXml P e ind) := by
  rw [toXml_eq_xcat]
  refine not_occursIn_xcat _ _ (entryTokens_raw_lt hind hurl hcf hpr) ?_
  intro w' hw'
  rcases entryTokens_tag_mem hw' with
    rfl | rfl | rfl | ⟨hc, rfl | rfl⟩ | ⟨_, rfl | rfl⟩ | ⟨_, rfl | rfl⟩ | rfl <;>
    first
      | exact ⟨by decide, by decide⟩
      | simp [hcond] at hc

theorem not_occ_priority {P : Platform} {e : SitemapEntry} {ind : List Char}
    (hind : '<' ∉ ind) (hurl : '<' ∉ renderUrl e.url)
    (hcf : '<' ∉ e.changeFrequency.getD []) (hpr : '<' ∉ jsRenderVal P e.priorityF)
    (hcond : (truthy e.priorityF && strictNeHalf e.priorityF) = false) :
    ¬ occursIn ('<' :: "priority>".toList) (SitemapEntry.toXml P e ind) := by
  rw [toXml_eq_xcat]
  refine not_occursIn_xcat _ _ (entryTokens_raw_lt hind hurl hcf hpr) ?_
  intro w' hw'
  rcases entryTokens_tag_mem hw' with
    rfl | rfl | rfl | ⟨_, rfl | rfl⟩ | ⟨hp, rfl | rfl⟩ | ⟨_, rfl | rfl⟩ | rfl <;>
    first
      | exact ⟨by decide, by decide⟩
      | simp [hcond] at hp

theorem not_occ_lastmod {P : Platform} {e : SitemapEntry} {ind : List Char}
    (hind : '<' ∉ ind) (hurl : '<' ∉ renderUrl e.url)
    (hcf : '<' ∉ e.changeFrequency.getD []) (hpr : '<' ∉ jsRenderVal P e.priorityF)
    (hcond : e.lastModifiedF = none) :
    ¬ occursIn ('<' :: "lastmod>".toList) (SitemapEntry.toXml P e ind) := by
  rw [toXml_eq_xcat]
  refine not_occursIn_xcat _ _ (entryTokens_raw_lt hind hurl hcf hpr) ?_
  intro w' hw'
  rcases entryTokens_tag_mem hw' with
    rfl | rfl | rfl | ⟨_, rfl | rfl⟩ | ⟨_, rfl | rfl⟩ | ⟨hl, rfl | rfl⟩ | rfl <;>
    first
      | exact ⟨by decide, by decide⟩
      | simp [hcond] at hl

/-- C9: the serialization of an entry always emits `<loc>`; emits
`<changefreq>` exactly when `changeFrequency` is truthy; emits
`<priority>` only when the priority differs from the default `0.5`;
emits `<lastmod>` exactly when `lastModified` is set, and then the full
element with the date-codec rendering occurs; the emitted elements
appear in the order `loc`, `changefreq`, `priority`, `lastmod`; and
inner elements are indented two spaces beyond the `<url>` indent.
(Hypotheses: the indent and the rendered field values contain no `'<'`,
as any well-formed sitemap data satisfies.) -/
theorem claim_C9 (P : Platform) (e : SitemapEntry) (ind : List Char)
    (hind : '<' ∉ ind) (hurl : '<' ∉ renderUrl e.url)
    (hcf : '<' ∉ e.changeFrequency.getD []) (hpr : '<' ∉ jsRenderVal P e.priorityF) :
    occursIn "<loc>".toList (SitemapEntry.toXml P e ind)
    ∧ (occursIn "<changefreq>".toList (SitemapEntry.toXml P e ind)
        ↔ truthyCF e.changeFrequency = true)
    ∧ (occursIn "<priority>".toList (SitemapEntry.toXml P e ind)
        → e.priorityF ≠ .num (.val (mkRat 1 2)))
    ∧ (occursIn "<lastmod>".toList (SitemapEntry.toXml P e ind)
        ↔ e.lastModifiedF ≠ none)
    ∧ (∀ d, e.lastModifiedF = some d →
        occursIn ("<lastmod>".toList ++ formatDate d ++ "</lastmod>".toList)
          (SitemapEntry.toXml P e ind))
    ∧ inOrder ((presentTagBodies e).map (fun w => '<' :: w)) (SitemapEntry.toXml P e ind)
    ∧ (ind ≠ [] → ∃ rest, SitemapEntry.toXml P e ind
        = ind ++ "<url>\n".toList ++ ind ++ "  <loc>".toList ++ rest) := by
  refine ⟨?_, ⟨?_, ?_⟩, ?_, ⟨?_, ?_⟩, ?_, ?_, ?_⟩
  · show occursIn ('<' :: "loc>".toList) _
    rw [toXml_eq_xcat]
    refine occursIn_xcat_tag _ ?_
    unfold entryTokens
    simp
  · intro hocc
    by_contra hne
    exact not_occ_changefreq hind hurl hcf hpr (Bool.not_eq_true _ ▸ hne) hocc
  · intro hc
    show occursIn ('<' :: "changefreq>".toList) _
    rw [toXml_eq_xcat]
    refine occursIn_xcat_tag _ ?_
    unfold entryTokens
    simp [hc]
  · intro hocc heq
    refine not_occ_priority hind hurl hcf hpr ?_ hocc
    rw [heq]; decide
  · intro hocc
    intro hnone
    exact not_occ_lastmod hind hurl hcf hpr hnone hocc
  · intro hne
    obtain ⟨d, hd⟩ := Option.ne_none_iff_exists'.mp hne
    show occursIn ('<' :: "lastmod>".toList) _
    rw [toXml_eq_xcat]
    refine occursIn_xcat_tag _ ?_
    unfold entryTokens
    simp [hd]
  · intro d hd
    refine ⟨ind ++ "<url>\n".toList
        ++ (if ind ≠ [] then ind ++ "  ".toList else []) ++ "<loc>".toList
        ++ renderUrl e.url ++ "</loc>\n".toList
        ++ (if truthyCF e.changeFrequency then
              (if ind ≠ [] then ind ++ "  ".toList else []) ++ "<changefreq>".toList
                ++ e.changeFrequency.getD [] ++ "</changefreq>\n".toList
            else [])
        ++ (if truthy e.priorityF && strictNeHalf e.priorityF then
              (if ind ≠ [] then ind ++ "  ".toList else []) ++ "<priority>".toList
                ++ jsRenderVal P e.priorityF ++ "</priority>\n".toList
            else [])
        ++ (if ind ≠ [] then ind ++ "  ".toList else []),
      '\n' :: (ind ++ "</url>".toList), ?_⟩
    unfold SitemapEntry.toXml
    rw [hd]
    simp [List.append_assoc]
  · rw [toXml_eq_xcat]
    apply inOrder_xcat
    unfold entryTokens presentTagBodies
    cases hc : truthyCF e.changeFrequency <;>
      cases hp : truthy e.priorityF && strictNeHalf e.priorityF <;>
        cases hlm : e.lastModifiedF <;>
          simp [List.filterMap_cons] <;> decide
  · intro hne
    refine ⟨renderUrl e.url ++ "</loc>\n".toList
        ++ (if truthyCF e.changeFrequency then
              (if ind ≠ [] then ind ++ "  ".toList else []) ++ "<changefreq>".toList
                ++ e.changeFrequency.getD [] ++ "</changefreq>\n".toList
            else [])
        ++ (if truthy e.priorityF && strictNeHalf e.priorityF then
              (if ind ≠ [] then ind ++ "  ".toList else []) ++ "<priority>".toList
                ++ jsRenderVal P e.priorityF ++ "</priority>\n".toList
            else [])
        ++ (match e.lastModifiedF with
            | some d => (if ind ≠ [] then ind ++ "  ".toList else []) ++ "<lastmod>".toList
                ++ formatDate d ++ "</lastmod>\n".toList
            | none => [])
        ++ ind ++ "</url>".toList, ?_⟩
    unfold SitemapEntry.toXml
    rw [if_pos hne]
    cases e.lastModifiedF <;> simp [List.append_assoc]

/-- C9 witness: a fully-populated entry serialized at two-space indent. -/
theorem claim_C9_witness :
    ('<' ∉ "  ".toList)
    ∧ ('<' ∉ renderUrl (some "/a/".toList))
    ∧ (occursIn "<loc>".toList
        (SitemapEntry.toXml samplePlatform
          { url := some "/a/".toList, changeFrequency := some "daily".toList,
            lastModifiedF := some (.valid 0), priorityF := .num (.val (mkRat 1 1)) }
          "  ".toList)
      ∧ (occursIn "<changefreq>".toList
          (SitemapEntry.toXml samplePlatform
            { url := some "/a/".toList, changeFrequency := some "daily".toList,
              lastModifiedF := some (.valid 0), priorityF := .num (.val (mkRat 1 1)) }
            "  ".toList)
          ↔ truthyCF (some "daily".toList) = true)) := by
  refine ⟨by decide, by decide, ?_⟩
  have h := claim_C9 samplePlatform
    { url := some "/a/".toList, changeFrequency := some "daily".toList,
      lastModifiedF := some (.valid 0), priorityF := .num (.val (mkRat 1 1)) }
    "  ".toList (by decide) (by decide) (by decide) (by decide)
  exact ⟨h.1, h.2.1⟩

/-! ## Claim C5: path-normalization lemmas -/

theorem splitSl_ne_nil : ∀ l : List Char, splitSl l ≠ []
  | [] => by simp [splitSl]
  | c :: rest => by
    cases h : splitSl rest with
    | nil => simp [splitSl, h]
    | cons hd tl =>
      simp only [splitSl, h]
      split <;> simp

theorem splitSl_cons_slash (X : List Char) : splitSl ('/' :: X) = [] :: splitSl X := by
  cases h : splitSl X with
  | nil => exact absurd h (splitSl_ne_nil X)
  | cons hd tl => simp [splitSl, h]

theorem splitSl_cons_ne (c : Char) (X : List Char) (hc : ¬(c = '/')) :
    splitSl (c :: X) = (c :: (splitSl X).headI) :: (splitSl X).tail := by
  cases h : splitSl X with
  | nil => exact absurd h (splitSl_ne_nil X)
  | cons hd tl => simp [splitSl, h, hc, List.headI]

theorem joinSl_cons_cons (s : List Char) (h : List Char) (t : List (List Char)) :
    joinSl (s :: h :: t) = s ++ '/' :: joinSl (h :: t) := rfl

theorem joinSl_splitSl : ∀ l : List Char, joinSl (splitSl l) = l
  | [] => rfl
  | c :: rest => by
    have ih := joinSl_splitSl rest
    by_cases hc : c = '/'
    · subst hc
      rw [splitSl_cons_slash]
      cases h : splitSl rest with
      | nil => exact absurd h (splitSl_ne_nil rest)
      | cons hd tl =>
        rw [h] at ih
        rw [joinSl_cons_cons]
        simp [ih]
    · rw [splitSl_cons_ne c rest hc]
      cases h : splitSl rest with
      | nil => exact absurd h (splitSl_ne_nil rest)
      | cons hd tl =>
        rw [h] at ih
        cases tl with
        | nil =>
          simp only [List.headI, List.tail_cons]
          show joinSl [c :: hd] = c :: rest
          show c :: hd = c :: rest
          simp only [joinSl] at ih
          rw [ih]
        | cons h2 t2 =>
          simp only [List.headI, List.tail_cons]
          rw [joinSl_cons_cons] at ih ⊢
          rw [List.cons_append, ih]

theorem splitSl_append_slash : ∀ (seg : List Char), ¬('/' ∈ seg) →
    ∀ rest, splitSl (seg ++ '/' :: rest) = seg :: splitSl rest := by
  intro seg
  induction seg with
  | nil => intro _ rest; exact splitSl_cons_slash rest
  | cons c seg' ih =>
    intro hmem rest
    have hc : ¬(c = '/') := fun h => hmem (by simp [h])
    have hseg' : ¬('/' ∈ seg') := fun h => hmem (List.mem_cons_of_mem _ h)
    rw [List.cons_append, splitSl_cons_ne c _ hc, ih hseg' rest]
    simp [List.headI]

theorem splitSl_no_slash : ∀ (l : List Char), ¬('/' ∈ l) → splitSl l = [l] := by
  intro l
  induction l with
  | nil => intro _; rfl
  | cons c l' ih =>
    intro hmem
    have hc : ¬(c = '/') := fun h => hmem (by simp [h])
    have hl' : ¬('/' ∈ l') := fun h => hmem (List.mem_cons_of_mem _ h)
    rw [splitSl_cons_ne c _ hc, ih hl']
    simp [List.headI]

theorem joinSl_append : ∀ (xs ys : List (List Char)), xs ≠ [] → ys ≠ [] →
    joinSl (xs ++ ys) = joinSl xs ++ '/' :: joinSl ys := by
  intro xs
  induction xs with
  | nil => intro ys h _; exact absurd rfl h
  | cons x xs' ih =>
    intro ys _ hys
    cases xs' with
    | nil =>
      cases ys with
      | nil => exact absurd rfl hys
      | cons y ys' => simp [joinSl_cons_cons, joinSl]
    | cons x2 xs2 =>
      have ih2 := ih ys (by simp) hys
      show joinSl (x :: ((x2 :: xs2) ++ ys)) = joinSl (x :: x2 :: xs2) ++ '/' :: joinSl ys
      rw [show (x2 :: xs2) ++ ys = x2 :: (xs2 ++ ys) from rfl] at ih2 ⊢
      rw [joinSl_cons_cons x x2 (xs2 ++ ys), joinSl_cons_cons x x2 xs2]
      rw [List.append_assoc, List.cons_append]
      rw [ih2]

theorem goodSegB_props {s : List Char} (h : goodSegB s = true) :
    s ≠ [] ∧ ¬('/' ∈ s) := by
  simp only [goodSegB, Bool.and_eq_true, decide_eq_true_eq] at h
  exact ⟨h.1, h.2.2.2⟩

theorem normSegs_foldl_good (aa : Bool) :
    ∀ (segs : List (List Char)) (acc : List (List Char)),
      (∀ s ∈ segs, s = [] ∨ goodSegB s = true) →
      segs.foldl (normSegsStep aa) acc
        = (segs.filter (fun s => !s.isEmpty)).reverse ++ acc := by
  intro segs
  induction segs with
  | nil => intro acc _; simp
  | cons s rest ih =>
    intro acc hall
    have hrest : ∀ t ∈ rest, t = [] ∨ goodSegB t = true :=
      fun t ht => hall t (List.mem_cons_of_mem _ ht)
    rcases hall s (List.mem_cons_self _ _) with rfl | hgood
    · rw [List.foldl_cons, show normSegsStep aa acc [] = acc from by simp [normSegsStep],
        ih acc hrest]
      simp
    · have hprops := hgood
      simp only [goodSegB, Bool.and_eq_true, decide_eq_true_eq] at hprops
      have hstep : normSegsStep aa acc s = s :: acc := by
        unfold normSegsStep
        rw [if_neg (by simp [hprops.1, hprops.2.1]), if_neg (by simp [hprops.2.2.1])]
      have hie : s.isEmpty = false := by
        cases s with
        | nil => exact absurd rfl hprops.1
        | cons a l => rfl
      rw [List.foldl_cons, hstep, ih (s :: acc) hrest]
      simp [List.filter_cons, hie]

theorem normSegs_good (aa : Bool) (segs : List (List Char))
    (hall : ∀ s ∈ segs, s = [] ∨ goodSegB s = true) :
    normSegs aa segs = segs.filter (fun s => !s.isEmpty) := by
  unfold normSegs
  rw [normSegs_foldl_good aa segs [] hall]
  simp

theorem joinSl_good_facts : ∀ core : List (List Char), core ≠ [] →
    (∀ s ∈ core, goodSegB s = true) →
    joinSl core ≠ [] ∧ (joinSl core).getLast? ≠ some '/' := by
  intro core
  induction core with
  | nil => intro h; exact absurd rfl h
  | cons x core' ih =>
    intro _ hall
    have hx := goodSegB_props (hall x (List.mem_cons_self _ _))
    cases core' with
    | nil =>
      refine ⟨hx.1, fun hl => hx.2 ?_⟩
      obtain ⟨hne, heq⟩ := List.mem_getLast?_eq_getLast
        (show '/' ∈ (joinSl [x]).getLast? from by simp [Option.mem_def, hl])
      rw [show ('/' ∈ x) = ('/' ∈ joinSl [x]) from rfl, heq]
      exact List.getLast_mem hne
    | cons y core2 =>
      have ih2 := ih (by simp) (fun t ht => hall t (List.mem_cons_of_mem _ ht))
      rw [joinSl_cons_cons]
      refine ⟨by simp, ?_⟩
      rw [show ('/' :: joinSl (y :: core2)) = ['/'] ++ joinSl (y :: core2) from rfl,
        ← List.append_assoc]
      rw [List.getLast?_append_of_ne_nil _ ih2.1]
      exact ih2.2

theorem segsThenSlash_decomp : ∀ rest : List (List Char), segsThenSlash rest = true →
    ∃ core, rest = core ++ [[]] ∧ (∀ s ∈ core, goodSegB s = true) := by
  intro rest
  induction rest with
  | nil => intro h; simp [segsThenSlash] at h
  | cons s rest' ih =>
    intro h
    cases rest' with
    | nil =>
      have hs : s = [] := by simpa [segsThenSlash, List.isEmpty_iff] using h
      exact ⟨[], by simp [hs], by simp⟩
    | cons t rest2 =>
      rw [show segsThenSlash (s :: t :: rest2)
          = (goodSegB s && segsThenSlash (t :: rest2)) from rfl,
        Bool.and_eq_true] at h
      obtain ⟨core, hc1, hc2⟩ := ih h.2
      refine ⟨s :: core, by simp [hc1], ?_⟩
      intro x hx
      rcases List.mem_cons.mp hx with rfl | hx2
      · exact h.1
      · exact hc2 x hx2

theorem segsRel_decomp : ∀ l : List (List Char), segsRel l = true →
    ∃ core tr, l = core ++ tr ∧ core ≠ [] ∧ (∀ s ∈ core, goodSegB s = true)
      ∧ (tr = [] ∨ tr = [[]]) := by
  intro l
  induction l with
  | nil => intro h; simp [segsRel] at h
  | cons s l' ih =>
    intro h
    cases l' with
    | nil =>
      have hs : goodSegB s = true := by simpa [segsRel] using h
      exact ⟨[s], [], by simp, by simp, by simpa using hs, .inl rfl⟩
    | cons t l2 =>
      cases l2 with
      | nil =>
        rw [show segsRel [s, t] = (goodSegB s && (t.isEmpty || goodSegB t)) from rfl,
          Bool.and_eq_true] at h
        rcases Bool.or_eq_true_iff.mp h.2 with ht | ht
        · refine ⟨[s], [[]], ?_, by simp, by simpa using h.1, .inr rfl⟩
          have : t = [] := List.isEmpty_iff.mp ht
          simp [this]
        · refine ⟨[s, t], [], by simp, by simp, ?_, .inl rfl⟩
          intro x hx
          rcases List.mem_cons.mp hx with rfl | hx2
          · exact h.1
          · rcases List.mem_cons.mp hx2 with rfl | hx3
            · exact ht
            · cases hx3
      | cons u l3 =>
        rw [show segsRel (s :: t :: u :: l3)
            = (goodSegB s && segsRel (t :: u :: l3)) from rfl,
          Bool.and_eq_true] at h
        obtain ⟨core, tr, heq, hne, hg, htr⟩ := ih h.2
        refine ⟨s :: core, tr, by simp [heq], by simp, ?_, htr⟩
        intro x hx
        rcases List.mem_cons.mp hx with rfl | hx2
        · exact h.1
        · exact hg x hx2

theorem splitSl_joinSl_append : ∀ (mid : List (List Char)), mid ≠ [] →
    (∀ s ∈ mid, goodSegB s = true) → ∀ Y,
    splitSl (joinSl mid ++ '/' :: Y) = mid ++ splitSl Y := by
  intro mid
  induction mid with
  | nil => intro h; exact absurd rfl h
  | cons x mid' ih =>
    intro _ hg Y
    have hx := goodSegB_props (hg x (List.mem_cons_self _ _))
    cases mid' with
    | nil =>
      show splitSl (x ++ '/' :: Y) = [x] ++ splitSl Y
      rw [splitSl_append_slash x hx.2 Y]
      rfl
    | cons y mid2 =>
      rw [joinSl_cons_cons, List.append_assoc, List.cons_append,
        splitSl_append_slash x hx.2, ih (by simp) (fun t ht => hg t (List.mem_cons_of_mem _ ht)) Y]
      rfl

theorem splitSl_joinSl_good : ∀ (core : List (List Char)), core ≠ [] →
    (∀ s ∈ core, goodSegB s = true) → splitSl (joinSl core) = core := by
  intro core
  induction core with
  | nil => intro h; exact absurd rfl h
  | cons x core' ih =>
    intro _ hg
    have hx := goodSegB_props (hg x (List.mem_cons_self _ _))
    cases core' with
    | nil => exact splitSl_no_slash x hx.2
    | cons y core2 =>
      rw [joinSl_cons_cons, splitSl_append_slash x hx.2,
        ih (by simp) (fun t ht => hg t (List.mem_cons_of_mem _ ht))]

theorem filter_good_eq_self (l : List (List Char))
    (hg : ∀ s ∈ l, goodSegB s = true) :
    l.filter (fun s => !s.isEmpty) = l := by
  refine List.filter_eq_self.mpr ?_
  intro s hs
  have := (goodSegB_props (hg s hs)).1
  cases s with
  | nil => exact absurd rfl this
  | cons a b => rfl

theorem pathNormalize_split (X : List Char) (mid : List (List Char))
    (hall : ∀ s ∈ splitSl X, s = [] ∨ goodSegB s = true)
    (hmid : (splitSl X).filter (fun s => !s.isEmpty) = mid)
    (hne : mid ≠ []) :
    pathNormalize ('/' :: X)
      = '/' :: (joinSl mid ++ if ('/' :: X).getLast? = some '/' then ['/'] else []) := by
  have hmidg : ∀ s ∈ mid, goodSegB s = true := by
    intro s hs
    rw [← hmid] at hs
    have h2 := List.mem_filter.mp hs
    rcases hall s h2.1 with rfl | hg
    · simp at h2
    · exact hg
  have hjoin := joinSl_good_facts mid hne hmidg
  have hsegs : ∀ s ∈ splitSl ('/' :: X), s = [] ∨ goodSegB s = true := by
    rw [splitSl_cons_slash]
    intro s hs
    rcases List.mem_cons.mp hs with rfl | hs2
    · exact .inl rfl
    · exact hall s hs2
  have hnorm : normSegs false (splitSl ('/' :: X)) = mid := by
    rw [normSegs_good false _ hsegs, splitSl_cons_slash]
    simp [List.filter_cons, hmid]
  unfold pathNormalize
  rw [if_neg (by simp : ¬('/' :: X = []))]
  simp only [List.head?_cons]
  rw [show (!decide True) = false from by decide]
  rw [hnorm]
  rw [if_neg hjoin.1]
  rw [if_pos trivial]
  split <;> simp

theorem createUrl_pre_concat (pre u : List Char)
    (hpre : goodPreB pre = true) (hu : goodRelB u = true) :
    createUrl u pre false = pre ++ (if u.head? = some '/' then u.tail else u) := by
  -- decompose the prefix
  unfold goodPreB at hpre
  cases hsp : splitSl pre with
  | nil => exact absurd hsp (splitSl_ne_nil pre)
  | cons s0 rest =>
    rw [hsp] at hpre
    cases s0 with
    | cons a b => simp at hpre
    | nil =>
      rw [show (match ([] : List Char) :: rest with
          | [] :: rest => decide (2 ≤ rest.length) && segsThenSlash rest
          | _ => false) = (decide (2 ≤ rest.length) && segsThenSlash rest) from rfl,
        Bool.and_eq_true, decide_eq_true_eq] at hpre
      obtain ⟨hlen, hsts⟩ := hpre
      obtain ⟨mid, hrest, hmidg⟩ := segsThenSlash_decomp rest hsts
      have hmidne : mid ≠ [] := by
        intro h
        rw [h] at hrest
        rw [hrest] at hlen
        simp at hlen
      have hpre_eq : pre = '/' :: (joinSl mid ++ ['/']) := by
        have h1 := joinSl_splitSl pre
        rw [hsp, hrest] at h1
        rw [← h1]
        cases hm : mid ++ [[]] with
        | nil => simp at hm
        | cons m0 ms =>
          rw [joinSl_cons_cons ([] : List Char) m0 ms, ← hm,
            joinSl_append mid [[]] hmidne (by simp)]
          rfl
      -- decompose the relative URL
      unfold goodRelB at hu
      set u' : List Char := if u.head? = some '/' then u.tail else u with hu'def
      obtain ⟨coreU, tr, hsplitU, hcune, hcug, htr⟩ := segsRel_decomp _ hu
      have hjcu := joinSl_good_facts coreU hcune hcug
      -- char-level trailing slash
      have htrc : (if tr = [[]] then (['/'] : List Char) else []) = []
          ∨ (if tr = [[]] then (['/'] : List Char) else []) = ['/'] := by
        split <;> simp
      set trc : List Char := if tr = [[]] then ['/'] else [] with htrcdef
      have hu'_eq : u' = joinSl coreU ++ trc := by
        have h1 := joinSl_splitSl u'
        rw [hsplitU] at h1
        rw [← h1]
        rcases htr with rfl | rfl
        · simp [htrcdef]
        · rw [joinSl_append coreU [[]] hcune (by simp)]
          simp [htrcdef]
          rfl
      have hu'ne : u' ≠ [] := by
        rw [hu'_eq]
        intro h
        rcases List.append_eq_nil.mp h with ⟨h1, _⟩
        exact hjcu.1 h1
      -- the combined segment list
      have hmcg : ∀ s ∈ mid ++ coreU, goodSegB s = true := by
        intro s hs
        rcases List.mem_append.mp hs with h | h
        · exact hmidg s h
        · exact hcug s h
      have hmcne : mid ++ coreU ≠ [] := by
        intro h
        exact hmidne (List.append_eq_nil.mp h).1
      have hjmc := joinSl_good_facts _ hmcne hmcg
      -- the concatenation fed to the inner normalize
      have hcat : pre ++ '/' :: u' = '/' :: (joinSl mid ++ '/' :: ('/' :: u')) := by
        rw [hpre_eq]
        simp
      have hXsplit : splitSl (joinSl mid ++ '/' :: ('/' :: u')) = mid ++ [] :: (coreU ++ tr) := by
        rw [splitSl_joinSl_append mid hmidne hmidg, splitSl_cons_slash, hsplitU]
      have hallX : ∀ s ∈ splitSl (joinSl mid ++ '/' :: ('/' :: u')),
          s = [] ∨ goodSegB s = true := by
        rw [hXsplit]
        intro s hs
        rcases List.mem_append.mp hs with h | h
        · exact .inr (hmidg s h)
        · rcases List.mem_cons.mp h with rfl | h2
          · exact .inl rfl
          · rcases List.mem_append.mp h2 with h3 | h3
            · exact .inr (hcug s h3)
            · rcases htr with rfl | rfl
              · cases h3
              · rcases List.mem_singleton.mp h3 with rfl
                exact .inl rfl
      have hfiltX : (splitSl (joinSl mid ++ '/' :: ('/' :: u'))).filter (fun s => !s.isEmpty)
          = mid ++ coreU := by
        rw [hXsplit, List.filter_append, filter_good_eq_self mid hmidg]
        rw [show List.filter (fun s => !s.isEmpty) (([] : List Char) :: (coreU ++ tr))
            = List.filter (fun s => !s.isEmpty) (coreU ++ tr) from by simp [List.filter_cons]]
        rw [List.filter_append, filter_good_eq_self coreU hcug]
        rcases htr with rfl | rfl <;> simp
      -- the trailing slash of the concatenation is that of the URL
      have hlast : ('/' :: (joinSl mid ++ '/' :: ('/' :: u'))).getLast? = u'.getLast? := by
        rw [show ('/' :: (joinSl mid ++ '/' :: ('/' :: u')))
            = (('/' :: joinSl mid) ++ ['/', '/']) ++ u' from by simp]
        exact List.getLast?_append_of_ne_nil _ hu'ne
      have hif : (if ('/' :: (joinSl mid ++ '/' :: ('/' :: u'))).getLast? = some '/'
          then (['/'] : List Char) else []) = trc := by
        rw [hlast, hu'_eq]
        rcases htrc with h0 | h0
        · rw [h0, List.append_nil, if_neg hjcu.2]
        · rw [h0]
          rw [if_pos (show (joinSl coreU ++ ['/']).getLast? = some '/' from by
            rw [List.getLast?_append_of_ne_nil _ (by simp : (['/'] : List Char) ≠ [])]
            rfl)]
      have hinner : pathNormalize (pre ++ '/' :: u') = '/' :: (joinSl (mid ++ coreU) ++ trc) := by
        rw [hcat, pathNormalize_split _ (mid ++ coreU) hallX hfiltX hmcne, hif]
      have houter : pathNormalize ('/' :: (joinSl (mid ++ coreU) ++ trc))
          = '/' :: (joinSl (mid ++ coreU) ++ trc) := by
        rcases htrc with h0 | h0
        · rw [h0, List.append_nil]
          have hsplit2 : splitSl (joinSl (mid ++ coreU)) = mid ++ coreU :=
            splitSl_joinSl_good _ hmcne hmcg
          have hall2 : ∀ s ∈ splitSl (joinSl (mid ++ coreU)), s = [] ∨ goodSegB s = true := by
            rw [hsplit2]; intro s hs; exact .inr (hmcg s hs)
          have hfilt2 : (splitSl (joinSl (mid ++ coreU))).filter (fun s => !s.isEmpty)
              = mid ++ coreU := by
            rw [hsplit2]; exact filter_good_eq_self _ hmcg
          rw [pathNormalize_split _ (mid ++ coreU) hall2 hfilt2 hmcne]
          rw [if_neg (by
            rw [show ('/' :: joinSl (mid ++ coreU)) = ['/'] ++ joinSl (mid ++ coreU) from rfl]
            rw [List.getLast?_append_of_ne_nil _ hjmc.1]
            exact hjmc.2)]
          rw [List.append_nil]
        · rw [h0]
          have hsplit2 : splitSl (joinSl (mid ++ coreU) ++ ['/']) = (mid ++ coreU) ++ [[]] := by
            rw [show (['/'] : List Char) = '/' :: ([] : List Char) from rfl,
              splitSl_joinSl_append _ hmcne hmcg]
            rfl
          have hall2 : ∀ s ∈ splitSl (joinSl (mid ++ coreU) ++ ['/']),
              s = [] ∨ goodSegB s = true := by
            rw [hsplit2]
            intro s hs
            rcases List.mem_append.mp hs with h | h
            · exact .inr (hmcg s h)
            · rcases List.mem_singleton.mp h with rfl
              exact .inl rfl
          have hfilt2 : (splitSl (joinSl (mid ++ coreU) ++ ['/'])).filter (fun s => !s.isEmpty)
              = mid ++ coreU := by
            rw [hsplit2, List.filter_append, filter_good_eq_self _ hmcg]
            simp
          rw [pathNormalize_split _ (mid ++ coreU) hall2 hfilt2 hmcne]
          rw [if_pos (by
            rw [show ('/' :: (joinSl (mid ++ coreU) ++ ['/']))
                = ('/' :: joinSl (mid ++ coreU)) ++ ['/'] from by simp]
            exact List.getLast?_append_of_ne_nil _ (by simp))]
      -- assemble
      simp only [createUrl, pathJoin, ← hu'def]
      rw [if_pos (show ¬(pre = []) from by rw [hpre_eq]; simp)]
      rw [hinner, houter]
      rw [if_pos (show ('/' :: (joinSl (mid ++ coreU) ++ trc)).head? = some '/' from rfl)]
      rw [show ((false && !(('/' :: (joinSl (mid ++ coreU) ++ trc)).getLast? = some '/')) = false)
        from by simp]
      rw [if_neg (by simp)]
      rw [hpre_eq, hu'_eq, joinSl_append mid coreU hmidne hcune]
      simp
/-- The URL-rewriting pass agrees with the specification's description
on well-formed inputs. -/
theorem rewriteItems_spec (pre : List Char) :
    ∀ items : List Item, allEntriesWithUrl items = true → goodPreB pre = true →
      allRelGood items = true →
      rewriteItems pre items = .ok (items.map (specRewriteItem pre)) := by
  intro items
  induction items with
  | nil => intro _ _ _; rfl
  | cons it rest ih =>
    intro h1 hp h2
    rw [allEntriesWithUrl, List.all_cons, Bool.and_eq_true] at h1
    rw [allRelGood, List.all_cons, Bool.and_eq_true] at h2
    have ihr := ih h1.2 hp h2.2
    cases it with
    | generateMarker => simp at h1
    | entry e =>
      have h1' : e.url.isSome = true := h1.1
      have h2' : (match e.url with
          | some u => reProtoB u || goodRelB u
          | none => false) = true := h2.1
      cases hu : e.url with
      | none => rw [hu] at h1'; simp at h1'
      | some u =>
        rw [hu] at h2'
        have h2'' : (reProtoB u || goodRelB u) = true := h2'
        by_cases hr : reProtoB u = true
        · simp [rewriteItems, rewriteItem, hu, hr, ihr, specRewriteItem, bind, Except.bind]
        · have hg : goodRelB u = true := by
            rw [Bool.or_eq_true_iff] at h2''
            rcases h2'' with h | h
            · exact absurd h hr
            · exact h
          simp [rewriteItems, rewriteItem, hu, hr, ihr, specRewriteItem,
            createUrl_pre_concat pre u hp hg, bind, Except.bind]

/-- C5: with `includeSitemap` enabled and a `sitemap.xml` surviving the
filter, the directory's scan enumerates nothing else — its entire
contribution is the parsed embedded document's items put through URL
rewriting — and on well-formed inputs (items are entries with URLs, a
well-formed accumulated prefix, clean relative URLs) the rewriting is
exactly the specification's: scheme-absolute URLs are left unchanged,
every other URL is prefixed with the current directory's URL prefix. -/
theorem claim_C5 (P : Platform) (pd : List Char → DomNodes) (opts : Options)
    (es : FSEntries) (mt : Int) (contents : List Char) (items : List Item)
    (hinc : opts.includeSitemap = true)
    (hmem : (filterEntries (namesOf es) opts.ext opts.includeSitemap).contains
      "sitemap.xml".toList = true)
    (hfile : lookupFS "sitemap.xml".toList es = some (.file mt contents))
    (hparse : sitemapNew P pd (.str contents) = .ok items) :
    scanDir P pd opts (.dirNode es) = rewriteItems opts.pre items
    ∧ (allEntriesWithUrl items = true → goodPreB opts.pre = true →
        allRelGood items = true →
        rewriteItems opts.pre items = .ok (items.map (specRewriteItem opts.pre))) := by
  constructor
  · rw [scanDir]
    rw [if_pos (by rw [hinc] at hmem ⊢; simpa using hmem)]
    rw [hfile]
    show getEmbeddedSitemap P pd contents opts = rewriteItems opts.pre items
    unfold getEmbeddedSitemap
    rw [hparse]
    rfl
  · intro h1 hp h2
    exact rewriteItems_spec opts.pre items h1 hp h2

/-- C5 witness: a directory holding only a `sitemap.xml` whose document
has one relative and one `mailto:`-absolute entry, scanned under the
prefix `/about/`. -/
theorem claim_C5_witness :
    optsC5.includeSitemap = true
    ∧ lookupFS "sitemap.xml".toList esC5 = some (.file 7 "raw".toList)
    ∧ sitemapNew samplePlatform (fun _ => embeddedDomC5) (.str "raw".toList) = .ok itemsC5
    ∧ scanDir samplePlatform (fun _ => embeddedDomC5) optsC5 (.dirNode esC5)
        = .ok [.entry { SitemapEntry.init with url := some "/about/embedded/".toList },
               .entry { SitemapEntry.init with url := some "mailto:x@y".toList }] := by
  have h := claim_C5 samplePlatform (fun _ => embeddedDomC5) optsC5 esC5 7
    "raw".toList itemsC5 rfl (by decide) rfl (by decide)
  refine ⟨rfl, rfl, by decide, ?_⟩
  rw [h.1, h.2 (by decide) (by decide) (by decide)]
  decide

/-! ## Claim C8 (date parsing accepts exactly the five forms) -/

theorem pLit_some {c : Char} {s r : List Char} (h : pLit c s = some r) : s = c :: r := by
  cases s with
  | nil => simp [pLit] at h
  | cons c' rest =>
    have h2 : (if c' = c then some rest else (none : Option (List Char))) = some r := h
    by_cases hc : c' = c
    · rw [if_pos hc] at h2
      injection h2 with h3
      rw [hc, h3]
    · rw [if_neg hc] at h2
      cases h2

theorem offAdjust_eq_neg (o : TzOff) : offAdjust o = -tzOffsetMs o := by
  cases o <;> simp [offAdjust, tzOffsetMs]

/-- C8: date parsing succeeds exactly on the accepted forms (`YYYY`,
`YYYY-MM`, `YYYY-MM-DD`, and the full datetime whose timezone is `Z` or
`±hh:mm` — the last two covered by the one full-datetime matcher), and
fails with `InvalidDateFormat` on everything else; moreover on a
fraction-free full-datetime match the result is the UTC-constructed time
minus the explicit offset. -/
theorem claim_C8 (P : Platform) (s : List Char) :
    ((∃ v, parseDate P s = .ok v)
      ↔ ((matchY s).isSome ∨ (matchYM s).isSome ∨ (matchYMD s).isSome
          ∨ (matchFull s).isSome))
    ∧ ((∃ v, parseDate P s = .ok v) ∨ parseDate P s = .error .invalidDateFormat)
    ∧ (∀ f : DTFields, matchFull s = some f → f.frac = none →
        parseDate P s
          = .ok (dateUTC (f.y : Int) ((f.mo : Int) - 1) (f.d : Int) (f.h : Int) (f.mi : Int)
              ((f.sec.getD 0 : Nat) : Int) 0 - tzOffsetMs f.off)) := by
  refine ⟨⟨?_, ?_⟩, ?_, ?_⟩
  · intro _
    by_cases h1 : (matchY s).isSome
    · exact .inl h1
    by_cases h2 : (matchYM s).isSome
    · exact .inr (.inl h2)
    by_cases h3 : (matchYMD s).isSome
    · exact .inr (.inr (.inl h3))
    by_cases h4 : (matchFull s).isSome
    · exact .inr (.inr (.inr h4))
    exfalso
    rw [Option.not_isSome_iff_eq_none] at h1 h2 h3 h4
    obtain ⟨v, hv⟩ := ‹∃ v, parseDate P s = .ok v›
    unfold parseDate at hv
    rw [h1, h2, h3, h4] at hv
    cases hv
  · intro h
    unfold parseDate
    cases h1 : matchY s with
    | some y => exact ⟨_, rfl⟩
    | none =>
      cases h2 : matchYM s with
      | some p => exact ⟨_, rfl⟩
      | none =>
        cases h3 : matchYMD s with
        | some p => exact ⟨_, rfl⟩
        | none =>
          cases h4 : matchFull s with
          | some f => exact ⟨_, rfl⟩
          | none =>
            rw [h1, h2, h3, h4] at h
            simp at h
  · unfold parseDate
    cases h1 : matchY s with
    | some y => exact .inl ⟨_, rfl⟩
    | none =>
      cases h2 : matchYM s with
      | some p => exact .inl ⟨_, rfl⟩
      | none =>
        cases h3 : matchYMD s with
        | some p => exact .inl ⟨_, rfl⟩
        | none =>
          cases h4 : matchFull s with
          | some f => exact .inl ⟨_, rfl⟩
          | none => exact .inr rfl
  · intro f hm hfrac
    -- unpack the full-datetime match to learn the shape of `s`
    have hm2 := hm
    simp only [matchFull, bind, Option.bind_eq_some, Option.pure_def,
      Option.some.injEq] at hm2
    obtain ⟨⟨y, r1⟩, h4, r2, hL1, ⟨mo, r3⟩, hD2, r4, hL2, ⟨d, r5⟩, hD3, r6, hL3,
      ⟨h, r7⟩, hD4, r8, hL4, ⟨mi, r9⟩, hD5, ⟨sec, frac, off⟩, hOff, hf⟩ := hm2
    -- the earlier matchers fail on this shape
    have hr1 : r1 = '-' :: r2 := pLit_some hL1
    have hr3 : r3 = '-' :: r4 := pLit_some hL2
    have hr5 : r5 = 'T' :: r6 := pLit_some hL3
    have hY : matchY s = none := by
      simp [matchY, bind, h4, hr1]
    have hYM : matchYM s = none := by
      simp [matchYM, bind, h4, hr1, pLit, hD2, hr3]
    have hYMD : matchYMD s = none := by
      simp [matchYMD, bind, h4, hr1, pLit, hD2, hr3, hD3, hr5]
    unfold parseDate
    rw [hY, hYM, hYMD, hm]
    simp only [hfrac]
    rw [offAdjust_eq_neg]
    simp [sub_eq_add_neg]

/-- Witness for C8: the full-datetime string `2015-01-02T03:04:05+01:30`
matches the full matcher with no fraction, and parses to the UTC
construction of its fields minus the 90-minute offset. -/
theorem claim_C8_witness :
    parseDate samplePlatform ("2015-01-02T03:04:05+01:30".toList)
      = .ok (dateUTC ((2015 : Nat) : Int) (((1 : Nat) : Int) - 1) ((2 : Nat) : Int)
          ((3 : Nat) : Int) ((4 : Nat) : Int) (((5 : Nat) : Int)) 0
          - tzOffsetMs (.plus 1 30)) :=
  (claim_C8 samplePlatform _).2.2 ⟨2015, 1, 2, 3, 4, some 5, none, .plus 1 30⟩ (by rfl) rfl


/-! ## Claim C7 (format/parse round-trip) -/

theorem ediv_eq_div (a b : Int) : a.ediv b = a / b := rfl

theorem emod_eq_mod (a b : Int) : a.emod b = a % b := rfl

theorem digits_four {n : Nat} (h1 : 1000 ≤ n) (h2 : n ≤ 9999) :
    Nat.digits 10 n = [n % 10, n / 10 % 10, n / 100 % 10, n / 1000] := by
  rw [Nat.digits_def' (show (1:ℕ) < 10 by norm_num) (show 0 < n by omega)]
  rw [Nat.digits_def' (show (1:ℕ) < 10 by norm_num) (show 0 < n / 10 by omega)]
  rw [Nat.digits_def' (show (1:ℕ) < 10 by norm_num) (show 0 < n / 10 / 10 by omega)]
  rw [Nat.digits_def' (show (1:ℕ) < 10 by norm_num) (show 0 < n / 10 / 10 / 10 by omega)]
  have h3 : n / 10 / 10 / 10 / 10 = 0 := by omega
  rw [h3, Nat.digits_zero]
  have e1 : n / 10 / 10 = n / 100 := by omega
  rw [e1]
  have e2 : n / 100 / 10 = n / 1000 := by omega
  rw [e2]
  have e3 : n / 1000 % 10 = n / 1000 := by omega
  rw [e3]

theorem digits_two {n : Nat} (h1 : 10 ≤ n) (h2 : n ≤ 99) :
    Nat.digits 10 n = [n % 10, n / 10] := by
  rw [Nat.digits_def' (show (1:ℕ) < 10 by norm_num) (show 0 < n by omega)]
  rw [Nat.digits_def' (show (1:ℕ) < 10 by norm_num) (show 0 < n / 10 by omega)]
  have h3 : n / 10 / 10 = 0 := by omega
  rw [h3, Nat.digits_zero]
  have e3 : n / 10 % 10 = n / 10 := by omega
  rw [e3]

theorem digits_one {n : Nat} (h1 : 0 < n) (h2 : n ≤ 9) :
    Nat.digits 10 n = [n] := by
  rw [Nat.digits_def' (show (1:ℕ) < 10 by norm_num) h1]
  have h3 : n / 10 = 0 := by omega
  rw [h3, Nat.digits_zero]
  have e3 : n % 10 = n := by omega
  rw [e3]

theorem natDigs_four {n : Nat} (h1 : 1000 ≤ n) (h2 : n ≤ 9999) :
    natDigs n = [digitChar (n / 1000), digitChar (n / 100 % 10),
      digitChar (n / 10 % 10), digitChar (n % 10)] := by
  rw [natDigs_eq, if_neg (show ¬ n = 0 by omega), digits_four h1 h2]
  rfl

theorem natDigs_two_digits {n : Nat} (h1 : 10 ≤ n) (h2 : n ≤ 99) :
    natDigs n = [digitChar (n / 10), digitChar (n % 10)] := by
  rw [natDigs_eq, if_neg (show ¬ n = 0 by omega), digits_two h1 h2]
  rfl

theorem natDigs_one_digit {n : Nat} (h2 : n ≤ 9) :
    natDigs n = [digitChar n] := by
  by_cases h : n = 0
  · subst h
    decide
  · rw [natDigs_eq, if_neg h, digits_one (by omega) h2]
    rfl

theorem intDigs_nonneg_eq {v : Int} (h : 0 ≤ v) : intDigs v = natDigs v.toNat := by
  unfold intDigs
  rw [if_neg (show ¬ v < 0 by omega)]

theorem intDigs_four {v : Int} (h1 : 1000 ≤ v) (h2 : v ≤ 9999) :
    intDigs v = [digitChar (v.toNat / 1000), digitChar (v.toNat / 100 % 10),
      digitChar (v.toNat / 10 % 10), digitChar (v.toNat % 10)] := by
  rw [intDigs_nonneg_eq (by omega)]
  exact natDigs_four (by omega) (by omega)

theorem pad_eval {v : Int} (h1 : 0 ≤ v) (h2 : v < 100) :
    pad v = [digitChar (v.toNat / 10), digitChar (v.toNat % 10)] := by
  unfold pad
  by_cases hv : v < 10
  · rw [if_pos hv, intDigs_nonneg_eq h1, natDigs_one_digit (show v.toNat ≤ 9 by omega)]
    have e1 : v.toNat / 10 = 0 := by omega
    have e2 : v.toNat % 10 = v.toNat := by omega
    rw [e1, e2, show digitChar 0 = '0' from by decide]
    rfl
  · rw [if_neg hv, List.nil_append, intDigs_nonneg_eq h1]
    exact natDigs_two_digits (by omega) (by omega)

theorem isDigitB_digitChar {d : Nat} (h : d < 10) : isDigitB (digitChar d) = true := by
  interval_cases d <;> decide

theorem digVal_digitChar {d : Nat} (h : d < 10) : digVal (digitChar d) = d := by
  interval_cases d <;> decide

theorem pLit_cons (c : Char) (r : List Char) : pLit c (c :: r) = some r := by
  simp [pLit]

theorem pDigits_four {a b c d : Nat} (ha : a < 10) (hb : b < 10) (hc : c < 10)
    (hd : d < 10) (r : List Char) :
    pDigits 4 (digitChar a :: digitChar b :: digitChar c :: digitChar d :: r)
      = some (((a * 10 + b) * 10 + c) * 10 + d, r) := by
  simp [pDigits, pDigitsGo, isDigitB_digitChar, digVal_digitChar, ha, hb, hc, hd]

theorem pDigits_two {a b : Nat} (ha : a < 10) (hb : b < 10) (r : List Char) :
    pDigits 2 (digitChar a :: digitChar b :: r) = some (a * 10 + b, r) := by
  simp [pDigits, pDigitsGo, isDigitB_digitChar, digVal_digitChar, ha, hb]

theorem matchSecFracOff_eval {a b : Nat} (ha : a < 10) (hb : b < 10) :
    matchSecFracOff (':' :: digitChar a :: digitChar b :: ['Z'])
      = some (some (a * 10 + b), none, .zulu) := by
  have h2 := pDigits_two ha hb ['Z']
  simp +decide [matchSecFracOff, bind, h2, matchOff]

theorem render_matchers {a1 a2 a3 a4 b1 b2 c1 c2 d1 d2 e1 e2 f1 f2 : Nat}
    (ha1 : a1 < 10) (ha2 : a2 < 10) (ha3 : a3 < 10) (ha4 : a4 < 10)
    (hb1 : b1 < 10) (hb2 : b2 < 10) (hc1 : c1 < 10) (hc2 : c2 < 10)
    (hd1 : d1 < 10) (hd2 : d2 < 10) (he1 : e1 < 10) (he2 : e2 < 10)
    (hf1 : f1 < 10) (hf2 : f2 < 10) :
    matchY (digitChar a1 :: digitChar a2 :: digitChar a3 :: digitChar a4 ::
        '-' :: digitChar b1 :: digitChar b2 :: '-' :: digitChar c1 :: digitChar c2 ::
        'T' :: digitChar d1 :: digitChar d2 :: ':' :: digitChar e1 :: digitChar e2 ::
        ':' :: digitChar f1 :: digitChar f2 :: ['Z']) = none
    ∧ matchYM (digitChar a1 :: digitChar a2 :: digitChar a3 :: digitChar a4 ::
        '-' :: digitChar b1 :: digitChar b2 :: '-' :: digitChar c1 :: digitChar c2 ::
        'T' :: digitChar d1 :: digitChar d2 :: ':' :: digitChar e1 :: digitChar e2 ::
        ':' :: digitChar f1 :: digitChar f2 :: ['Z']) = none
    ∧ matchYMD (digitChar a1 :: digitChar a2 :: digitChar a3 :: digitChar a4 ::
        '-' :: digitChar b1 :: digitChar b2 :: '-' :: digitChar c1 :: digitChar c2 ::
        'T' :: digitChar d1 :: digitChar d2 :: ':' :: digitChar e1 :: digitChar e2 ::
        ':' :: digitChar f1 :: digitChar f2 :: ['Z']) = none
    ∧ matchFull (digitChar a1 :: digitChar a2 :: digitChar a3 :: digitChar a4 ::
        '-' :: digitChar b1 :: digitChar b2 :: '-' :: digitChar c1 :: digitChar c2 ::
        'T' :: digitChar d1 :: digitChar d2 :: ':' :: digitChar e1 :: digitChar e2 ::
        ':' :: digitChar f1 :: digitChar f2 :: ['Z'])
      = some ⟨((a1 * 10 + a2) * 10 + a3) * 10 + a4, b1 * 10 + b2, c1 * 10 + c2,
          d1 * 10 + d2, e1 * 10 + e2, some (f1 * 10 + f2), none, .zulu⟩ := by
  refine ⟨?_, ?_, ?_, ?_⟩
  · simp [matchY, bind, pDigits_four ha1 ha2 ha3 ha4]
  · simp [matchYM, bind, pDigits_four ha1 ha2 ha3 ha4, pLit_cons, pDigits_two hb1 hb2]
  · simp [matchYMD, bind, pDigits_four ha1 ha2 ha3 ha4, pLit_cons, pDigits_two hb1 hb2,
      pDigits_two hc1 hc2]
  · simp [matchFull, bind, pDigits_four ha1 ha2 ha3 ha4, pLit_cons,
      pDigits_two hb1 hb2, pDigits_two hc1 hc2, pDigits_two hd1 hd2,
      pDigits_two he1 he2, matchSecFracOff_eval hf1 hf2]

theorem parseDate_render (P : Platform) {a1 a2 a3 a4 b1 b2 c1 c2 d1 d2 e1 e2 f1 f2 : Nat}
    (ha1 : a1 < 10) (ha2 : a2 < 10) (ha3 : a3 < 10) (ha4 : a4 < 10)
    (hb1 : b1 < 10) (hb2 : b2 < 10) (hc1 : c1 < 10) (hc2 : c2 < 10)
    (hd1 : d1 < 10) (hd2 : d2 < 10) (he1 : e1 < 10) (he2 : e2 < 10)
    (hf1 : f1 < 10) (hf2 : f2 < 10) :
    parseDate P (digitChar a1 :: digitChar a2 :: digitChar a3 :: digitChar a4 ::
        '-' :: digitChar b1 :: digitChar b2 :: '-' :: digitChar c1 :: digitChar c2 ::
        'T' :: digitChar d1 :: digitChar d2 :: ':' :: digitChar e1 :: digitChar e2 ::
        ':' :: digitChar f1 :: digitChar f2 :: ['Z'])
      = .ok (dateUTC ((((a1 * 10 + a2) * 10 + a3) * 10 + a4 : Nat) : Int)
          (((b1 * 10 + b2 : Nat) : Int) - 1) ((c1 * 10 + c2 : Nat) : Int)
          ((d1 * 10 + d2 : Nat) : Int) ((e1 * 10 + e2 : Nat) : Int)
          ((f1 * 10 + f2 : Nat) : Int) 0) := by
  obtain ⟨hY, hYM, hYMD, hF⟩ := render_matchers ha1 ha2 ha3 ha4 hb1 hb2 hc1 hc2
    hd1 hd2 he1 he2 hf1 hf2
  unfold parseDate
  rw [hY, hYM, hYMD, hF]
  simp [offAdjust]

theorem monthFromDwyL_spec (l dwy : Int) :
    monthFromDwyL l dwy ≤ 11
      ∧ (0 ≤ l → l ≤ 1 → 0 ≤ dwy → dwy ≤ 365 →
          cumDaysL l (monthFromDwyL l dwy) ≤ dwy
            ∧ dwy - cumDaysL l (monthFromDwyL l dwy) ≤ 61) := by
  unfold monthFromDwyL
  by_cases h1 : dwy < 31
  · rw [if_pos h1]
    simp only [cumDaysL]; refine ⟨by omega, fun p q r s => ⟨by omega, by omega⟩⟩
  · rw [if_neg h1]
    by_cases h2 : dwy < 59 + l
    · rw [if_pos h2]
      simp only [cumDaysL]; refine ⟨by omega, fun p q r s => ⟨by omega, by omega⟩⟩
    · rw [if_neg h2]
      by_cases h3 : dwy < 90 + l
      · rw [if_pos h3]
        simp only [cumDaysL]; refine ⟨by omega, fun p q r s => ⟨by omega, by omega⟩⟩
      · rw [if_neg h3]
        by_cases h4 : dwy < 120 + l
        · rw [if_pos h4]
          simp only [cumDaysL]; refine ⟨by omega, fun p q r s => ⟨by omega, by omega⟩⟩
        · rw [if_neg h4]
          by_cases h5 : dwy < 151 + l
          · rw [if_pos h5]
            simp only [cumDaysL]; refine ⟨by omega, fun p q r s => ⟨by omega, by omega⟩⟩
          · rw [if_neg h5]
            by_cases h6 : dwy < 181 + l
            · rw [if_pos h6]
              simp only [cumDaysL]; refine ⟨by omega, fun p q r s => ⟨by omega, by omega⟩⟩
            · rw [if_neg h6]
              by_cases h7 : dwy < 212 + l
              · rw [if_pos h7]
                simp only [cumDaysL]; refine ⟨by omega, fun p q r s => ⟨by omega, by omega⟩⟩
              · rw [if_neg h7]
                by_cases h8 : dwy < 243 + l
                · rw [if_pos h8]
                  simp only [cumDaysL]; refine ⟨by omega, fun p q r s => ⟨by omega, by omega⟩⟩
                · rw [if_neg h8]
                  by_cases h9 : dwy < 273 + l
                  · rw [if_pos h9]
                    simp only [cumDaysL]; refine ⟨by omega, fun p q r s => ⟨by omega, by omega⟩⟩
                  · rw [if_neg h9]
                    by_cases h10 : dwy < 304 + l
                    · rw [if_pos h10]
                      simp only [cumDaysL]; refine ⟨by omega, fun p q r s => ⟨by omega, by omega⟩⟩
                    · rw [if_neg h10]
                      by_cases h11 : dwy < 334 + l
                      · rw [if_pos h11]
                        simp only [cumDaysL]; refine ⟨by omega, fun p q r s => ⟨by omega, by omega⟩⟩
                      · rw [if_neg h11]
                        simp only [cumDaysL]; refine ⟨by omega, fun p q r s => ⟨by omega, by omega⟩⟩

theorem monthFromDwy_le (lp : Bool) (dwy : Int) : monthFromDwy lp dwy ≤ 11 := by
  unfold monthFromDwy
  exact (monthFromDwyL_spec _ _).1

theorem dateFromDwy_bounds (lp : Bool) {dwy : Int} (h1 : 0 ≤ dwy) (h2 : dwy ≤ 365) :
    1 ≤ dateFromDwy lp dwy ∧ dateFromDwy lp dwy ≤ 62 := by
  unfold dateFromDwy cumDays monthFromDwy
  have hs := (monthFromDwyL_spec (if lp then (1:Int) else 0) dwy).2
    (by cases lp <;> simp) (by cases lp <;> simp) h1 h2
  omega


theorem hourFromTime_bounds (t : Int) : 0 ≤ hourFromTime t ∧ hourFromTime t < 24 := by
  unfold hourFromTime
  exact ⟨Int.emod_nonneg _ (by norm_num), Int.emod_lt_of_pos _ (by norm_num)⟩

theorem minFromTime_bounds (t : Int) : 0 ≤ minFromTime t ∧ minFromTime t < 60 := by
  unfold minFromTime
  exact ⟨Int.emod_nonneg _ (by norm_num), Int.emod_lt_of_pos _ (by norm_num)⟩

theorem secFromTime_bounds (t : Int) : 0 ≤ secFromTime t ∧ secFromTime t < 60 := by
  unfold secFromTime
  exact ⟨Int.emod_nonneg _ (by norm_num), Int.emod_lt_of_pos _ (by norm_num)⟩

theorem dayFromYear_succ_bounds (y : Int) :
    365 ≤ dayFromYear (y + 1) - dayFromYear y
      ∧ dayFromYear (y + 1) - dayFromYear y ≤ 366 := by
  unfold dayFromYear
  simp only [ediv_eq_div]
  omega

theorem makeDay_cancel (y dwy : Int) :
    makeDay y (monthFromDwy (isLeap y) dwy) (dateFromDwy (isLeap y) dwy)
      = dayFromYear y + dwy := by
  have hm : monthFromDwy (isLeap y) dwy ≤ 11 := monthFromDwy_le _ _
  simp only [makeDay]
  have h0 : ((monthFromDwy (isLeap y) dwy : Nat) : Int).ediv 12 = 0 := by
    rw [ediv_eq_div]
    omega
  have h1 : (((monthFromDwy (isLeap y) dwy : Nat) : Int).emod 12).toNat
      = monthFromDwy (isLeap y) dwy := by
    rw [emod_eq_mod]
    omega
  rw [h0]
  simp only [add_zero]
  rw [h1]
  unfold dateFromDwy
  omega

theorem truncAddInt_zero (b : Int) : truncAddInt b 0 = b := by
  simp only [truncAddInt, show ((0 : Rat)).den = 1 from rfl,
    show ((0 : Rat)).num = 0 from rfl, ediv_eq_div]
  split_ifs <;> omega

theorem timeRecompose (t : Int) :
    dayOf t * msPerDay + hourFromTime t * 3600000 + minFromTime t * 60000
      + secFromTime t * 1000 = 1000 * (t / 1000) := by
  unfold dayOf hourFromTime minFromTime secFromTime msPerDay
  simp only [ediv_eq_div, emod_eq_mod]
  omega

theorem dateUTC_recompose (t : Int) :
    dateUTC (yft t) ((monthFromTime t : Nat) : Int) (dateFromTime t) (hourFromTime t)
      (minFromTime t) (secFromTime t) 0 = 1000 * (t / 1000) := by
  unfold dateUTC
  rw [truncAddInt_zero]
  have hmk : makeDay (yft t) ((monthFromTime t : Nat) : Int) (dateFromTime t)
      = dayFromYear (yft t) + dwyOf t := makeDay_cancel (yft t) (dwyOf t)
  rw [hmk]
  rw [show dayFromYear (yft t) + dwyOf t = dayOf t from by unfold dwyOf; omega]
  exact timeRecompose t

theorem dayOf_trunc (t : Int) : dayOf (1000 * (t / 1000)) = dayOf t := by
  unfold dayOf msPerDay
  simp only [ediv_eq_div]
  omega

theorem yft_trunc (t : Int) : yft (1000 * (t / 1000)) = yft t := by
  unfold yft
  rw [dayOf_trunc]

theorem dwyOf_trunc (t : Int) : dwyOf (1000 * (t / 1000)) = dwyOf t := by
  unfold dwyOf
  rw [dayOf_trunc, yft_trunc]

theorem monthFromTime_trunc (t : Int) :
    monthFromTime (1000 * (t / 1000)) = monthFromTime t := by
  unfold monthFromTime
  rw [yft_trunc, dwyOf_trunc]

theorem dateFromTime_trunc (t : Int) :
    dateFromTime (1000 * (t / 1000)) = dateFromTime t := by
  unfold dateFromTime
  rw [yft_trunc, dwyOf_trunc]

theorem hourFromTime_trunc (t : Int) :
    hourFromTime (1000 * (t / 1000)) = hourFromTime t := by
  unfold hourFromTime
  simp only [ediv_eq_div, emod_eq_mod]
  omega

theorem minFromTime_trunc (t : Int) :
    minFromTime (1000 * (t / 1000)) = minFromTime t := by
  unfold minFromTime
  simp only [ediv_eq_div, emod_eq_mod]
  omega

theorem secFromTime_trunc (t : Int) :
    secFromTime (1000 * (t / 1000)) = secFromTime t := by
  unfold secFromTime
  simp only [ediv_eq_div, emod_eq_mod]
  omega

theorem format_trunc (t : Int) :
    formatDate (.valid (1000 * (t / 1000))) = formatDate (.valid t) := by
  simp only [formatDate]
  rw [yft_trunc, monthFromTime_trunc, dateFromTime_trunc, hourFromTime_trunc,
    minFromTime_trunc, secFromTime_trunc]

theorem parse_format (P : Platform) (t : Int)
    (hbr1 : dayFromYear (yft t) ≤ dayOf t) (hbr2 : dayOf t < dayFromYear (yft t + 1))
    (hy1 : 1000 ≤ yft t) (hy2 : yft t ≤ 9999) :
    parseDate P (formatDate (.valid t)) = .ok (1000 * (t / 1000)) := by
  have hdiff := dayFromYear_succ_bounds (yft t)
  have hdwy1 : 0 ≤ dwyOf t := by unfold dwyOf; omega
  have hdwy2 : dwyOf t ≤ 365 := by unfold dwyOf; omega
  have hdate : 1 ≤ dateFromTime t ∧ dateFromTime t ≤ 62 :=
    dateFromDwy_bounds (isLeap (yft t)) hdwy1 hdwy2
  have hmo : monthFromTime t ≤ 11 := monthFromDwy_le _ _
  have hhr : 0 ≤ hourFromTime t ∧ hourFromTime t < 24 := hourFromTime_bounds t
  have hmi : 0 ≤ minFromTime t ∧ minFromTime t < 60 := minFromTime_bounds t
  have hse : 0 ≤ secFromTime t ∧ secFromTime t < 60 := secFromTime_bounds t
  have hfmt : formatDate (.valid t)
      = digitChar ((yft t).toNat / 1000) :: digitChar ((yft t).toNat / 100 % 10)
        :: digitChar ((yft t).toNat / 10 % 10) :: digitChar ((yft t).toNat % 10)
        :: '-' :: digitChar (((monthFromTime t : Int) + 1).toNat / 10)
        :: digitChar (((monthFromTime t : Int) + 1).toNat % 10)
        :: '-' :: digitChar ((dateFromTime t).toNat / 10)
        :: digitChar ((dateFromTime t).toNat % 10)
        :: 'T' :: digitChar ((hourFromTime t).toNat / 10)
        :: digitChar ((hourFromTime t).toNat % 10)
        :: ':' :: digitChar ((minFromTime t).toNat / 10)
        :: digitChar ((minFromTime t).toNat % 10)
        :: ':' :: digitChar ((secFromTime t).toNat / 10)
        :: digitChar ((secFromTime t).toNat % 10)
        :: ['Z'] := by
    have p1 := @pad_eval ((monthFromTime t : Int) + 1) (by omega) (by omega)
    have p2 := @pad_eval (dateFromTime t) (by omega) (by omega)
    have p3 := @pad_eval (hourFromTime t) (by omega) (by omega)
    have p4 := @pad_eval (minFromTime t) (by omega) (by omega)
    have p5 := @pad_eval (secFromTime t) (by omega) (by omega)
    simp only [formatDate]
    rw [intDigs_four hy1 hy2, p1, p2, p3, p4, p5]
    rfl
  rw [hfmt]
  rw [@parseDate_render P ((yft t).toNat / 1000) ((yft t).toNat / 100 % 10)
      ((yft t).toNat / 10 % 10) ((yft t).toNat % 10)
      (((monthFromTime t : Int) + 1).toNat / 10) (((monthFromTime t : Int) + 1).toNat % 10)
      ((dateFromTime t).toNat / 10) ((dateFromTime t).toNat % 10)
      ((hourFromTime t).toNat / 10) ((hourFromTime t).toNat % 10)
      ((minFromTime t).toNat / 10) ((minFromTime t).toNat % 10)
      ((secFromTime t).toNat / 10) ((secFromTime t).toNat % 10)
      (by omega) (by omega) (by omega) (by omega) (by omega) (by omega) (by omega)
      (by omega) (by omega) (by omega) (by omega) (by omega) (by omega) (by omega)]
  have eY : ((((yft t).toNat / 1000) * 10 + (yft t).toNat / 100 % 10) * 10
      + (yft t).toNat / 10 % 10) * 10 + (yft t).toNat % 10 = (yft t).toNat := by omega
  have eMO : (((monthFromTime t : Int) + 1).toNat / 10) * 10
      + ((monthFromTime t : Int) + 1).toNat % 10 = ((monthFromTime t : Int) + 1).toNat := by
    omega
  have eD : ((dateFromTime t).toNat / 10) * 10 + (dateFromTime t).toNat % 10
      = (dateFromTime t).toNat := by omega
  have eH : ((hourFromTime t).toNat / 10) * 10 + (hourFromTime t).toNat % 10
      = (hourFromTime t).toNat := by omega
  have eMI : ((minFromTime t).toNat / 10) * 10 + (minFromTime t).toNat % 10
      = (minFromTime t).toNat := by omega
  have eS : ((secFromTime t).toNat / 10) * 10 + (secFromTime t).toNat % 10
      = (secFromTime t).toNat := by omega
  rw [eY, eMO, eD, eH, eMI, eS]
  rw [Int.toNat_of_nonneg (show (0:Int) ≤ yft t by omega),
    Int.toNat_of_nonneg (show (0:Int) ≤ (monthFromTime t : Int) + 1 by omega),
    Int.toNat_of_nonneg (show (0:Int) ≤ dateFromTime t by omega),
    Int.toNat_of_nonneg hhr.1, Int.toNat_of_nonneg hmi.1, Int.toNat_of_nonneg hse.1]
  rw [show (monthFromTime t : Int) + 1 - 1 = ((monthFromTime t : Nat) : Int) from by ring]
  rw [dateUTC_recompose]

/-- C7, corrected: the round-trip `format(parse(format(t))) = format(t)` holds
for timestamps whose UTC year renders as exactly four digits (1000–9999; the
bracketing hypotheses pin the embedded year search to the true ECMA
`YearFromTime`), because formatting emits `YYYY-MM-DDThh:mm:ssZ`, parsing
that string recovers the whole-second truncation `1000 * (t ediv 1000)`, and
re-formatting is insensitive to sub-second truncation.  It does not hold for
every timestamp: see the counterexample (year 999). -/
theorem claim_C7 (P : Platform) (t : Int)
    (hbr1 : dayFromYear (yft t) ≤ dayOf t) (hbr2 : dayOf t < dayFromYear (yft t + 1))
    (hy1 : 1000 ≤ yft t) (hy2 : yft t ≤ 9999) :
    (parseDate P (formatDate (.valid t))).map (fun v => formatDate (.valid v))
      = .ok (formatDate (.valid t)) := by
  rw [parse_format P t hbr1 hbr2 hy1 hy2]
  show Except.ok (formatDate (.valid (1000 * (t / 1000)))) = _
  rw [format_trunc]

/-- Counterexample to C7 as stated for every timestamp: at the UTC instant of
year 999 (`t = -30641760000000`, i.e. 999-01-01T00:00:00Z), `formatDate`
renders a three-digit year, `parseDate` rejects that string with
`InvalidDateFormat` (the `\d{4}` group finds only three digits), and the
round-trip fails. -/
theorem claim_C7_counterexample :
    ¬ ((parseDate samplePlatform (formatDate (.valid (-30641760000000)))).map
        (fun v => formatDate (.valid v))
      = .ok (formatDate (.valid (-30641760000000)))) := by decide

/-- Witness for C7 at `t = 0` (1970-01-01T00:00:00Z): the hypotheses hold and
the round-trip is stable. -/
theorem claim_C7_witness :
    (parseDate samplePlatform (formatDate (.valid 0))).map (fun v => formatDate (.valid v))
      = .ok (formatDate (.valid 0)) :=
  claim_C7 samplePlatform 0 (by decide) (by decide) (by decide) (by decide)


end Sitemap
